import Mathlib

/-!
Verification of the indicator-computation and data-merge pipeline of the
DatasetGeneratorMicroservice repository.

The Python source is shallowly embedded as follows:

* Python floats are modelled as rationals (`ℚ`); floating-point rounding is
  outside the scope of every claim treated here.
* `pydantic` models (`src/models/data_models.py`) become Lean structures with
  the same field names (`open` is a Lean keyword, so the field is `open_`);
  optional fields become `Option` fields whose default is `none`, mirroring
  the pydantic defaults.
* A Python `dict` used as an ordered row (insertion-ordered, as in CPython)
  is modelled as an association list `List (String × CellVal)`.
* Raising an exception is modelled by returning `none` from an
  `Option`-valued function (`MarketData.to_dict` can raise
  `ZeroDivisionError`; everything else in scope is total).
* `datetime` payloads are modelled as integers: the pipeline only copies them
  around, never computes with them.
-/

/-- Scalar value stored in one cell of a flattened CSV row.  `nullVal` models
Python `None` / pandas `NaN` (the null/missing marker); it is a separate
constructor, distinct from any numeric value such as `ratVal 0`. -/
inductive CellVal where
  | intVal (n : ℤ)
  | strVal (s : String)
  | ratVal (q : ℚ)
  | nullVal
deriving DecidableEq, Repr

/-- Serialization of an optional numeric field into a row cell: an absent
field becomes the null marker, never a number. -/
def optCell : Option ℚ → CellVal
  | none => CellVal.nullVal
  | some q => CellVal.ratVal q

/-- One flattened row: an insertion-ordered mapping from column names to
cell values, as produced by `MarketData.to_dict`. -/
abbrev Row := List (String × CellVal)

/-- Model of `OHLCV` from `src/models/data_models.py` (one candle). -/
structure OHLCV where
  timestamp : ℤ
  datetime : ℤ
  open_ : ℚ
  high : ℚ
  low : ℚ
  close : ℚ
  volume : ℚ
  symbol : String
  timeframe : String
deriving DecidableEq, Repr

instance : Inhabited OHLCV := ⟨⟨0, 0, 0, 0, 0, 0, 0, "", ""⟩⟩

/-- Model of `OrderBookLevel` from `src/models/data_models.py`. -/
structure OrderBookLevel where
  price : ℚ
  amount : ℚ
deriving DecidableEq, Repr

instance : Inhabited OrderBookLevel := ⟨⟨0, 0⟩⟩

/-- Model of `OrderBook` from `src/models/data_models.py`. -/
structure OrderBook where
  timestamp : ℤ
  datetime : ℤ
  symbol : String
  bids : List OrderBookLevel
  asks : List OrderBookLevel
deriving DecidableEq, Repr

/-- Model of `TechnicalIndicators` from `src/models/data_models.py`: the
key `(symbol, timeframe, timestamp)` (plus the derived `datetime`) and the
fourteen optional indicator fields, in source declaration order, each
defaulting to `None`. -/
structure TechnicalIndicators where
  symbol : String
  timeframe : String
  timestamp : ℤ
  datetime : ℤ
  sma_20 : Option ℚ := none
  sma_50 : Option ℚ := none
  sma_200 : Option ℚ := none
  ema_12 : Option ℚ := none
  ema_26 : Option ℚ := none
  rsi_14 : Option ℚ := none
  macd : Option ℚ := none
  macd_signal : Option ℚ := none
  macd_hist : Option ℚ := none
  bb_upper : Option ℚ := none
  bb_middle : Option ℚ := none
  bb_lower : Option ℚ := none
  atr_14 : Option ℚ := none
  obv : Option ℚ := none
deriving DecidableEq, Repr

instance : Inhabited TechnicalIndicators :=
  ⟨{ symbol := "", timeframe := "", timestamp := 0, datetime := 0 }⟩

/-- Model of `MarketData` from `src/models/data_models.py`: one candle, its
indicator set, and an optional order-book snapshot. -/
structure MarketData where
  ohlcv : OHLCV
  indicators : TechnicalIndicators
  order_book_snapshot : Option OrderBook := none
deriving DecidableEq, Repr

instance : Inhabited MarketData := ⟨⟨default, default, none⟩⟩

/-- Column names of the nine leading OHLCV columns of a flattened row, in the
order `MarketData.to_dict` inserts them. -/
def baseKeys : List String :=
  ["timestamp", "datetime", "symbol", "timeframe", "open", "high", "low",
   "close", "volume"]

/-- Column names of the fourteen indicator columns, in pydantic field
declaration order, which is the iteration order of `self.indicators.dict()`
in `MarketData.to_dict` after the four key fields are skipped. -/
def indicatorKeys : List String :=
  ["sma_20", "sma_50", "sma_200", "ema_12", "ema_26", "rsi_14", "macd",
   "macd_signal", "macd_hist", "bb_upper", "bb_middle", "bb_lower", "atr_14",
   "obv"]

/-- Column names of the four best-bid/best-ask columns inserted whenever an
order-book snapshot is attached. -/
def bestKeys : List String :=
  ["best_bid_price", "best_bid_amount", "best_ask_price", "best_ask_amount"]

/-- Column names of the two spread columns inserted when both book sides are
non-empty. -/
def spreadKeys : List String := ["spread", "spread_percent"]

/-- Indicator cells of a flattened row, in insertion order (the loop over
`self.indicators.dict().items()` in `MarketData.to_dict`). -/
def indicatorCells (ti : TechnicalIndicators) : Row :=
  [("sma_20", optCell ti.sma_20), ("sma_50", optCell ti.sma_50),
   ("sma_200", optCell ti.sma_200), ("ema_12", optCell ti.ema_12),
   ("ema_26", optCell ti.ema_26), ("rsi_14", optCell ti.rsi_14),
   ("macd", optCell ti.macd), ("macd_signal", optCell ti.macd_signal),
   ("macd_hist", optCell ti.macd_hist), ("bb_upper", optCell ti.bb_upper),
   ("bb_middle", optCell ti.bb_middle), ("bb_lower", optCell ti.bb_lower),
   ("atr_14", optCell ti.atr_14), ("obv", optCell ti.obv)]

/-- Model of `MarketData.to_dict` (`src/models/data_models.py`, lines
70-101).  The nine OHLCV cells are inserted first, then the fourteen
indicator cells, then - only when `order_book_snapshot` is present - the four
best-bid/ask cells (`None` for an empty side) and, when both sides are
non-empty, the two spread cells.  `spread_percent` divides by the best bid
price with no guard; a zero best bid raises `ZeroDivisionError` in Python,
modelled here as the result `none`. -/
def MarketData.to_dict (md : MarketData) : Option Row :=
  let base : Row :=
    [("timestamp", CellVal.intVal md.ohlcv.timestamp),
     ("datetime", CellVal.intVal md.ohlcv.datetime),
     ("symbol", CellVal.strVal md.ohlcv.symbol),
     ("timeframe", CellVal.strVal md.ohlcv.timeframe),
     ("open", CellVal.ratVal md.ohlcv.open_),
     ("high", CellVal.ratVal md.ohlcv.high),
     ("low", CellVal.ratVal md.ohlcv.low),
     ("close", CellVal.ratVal md.ohlcv.close),
     ("volume", CellVal.ratVal md.ohlcv.volume)]
  let withInd : Row := base ++ indicatorCells md.indicators
  match md.order_book_snapshot with
  | none => some withInd
  | some ob =>
    let best : Row :=
      [("best_bid_price", optCell ((ob.bids.head?).map (·.price))),
       ("best_bid_amount", optCell ((ob.bids.head?).map (·.amount))),
       ("best_ask_price", optCell ((ob.asks.head?).map (·.price))),
       ("best_ask_amount", optCell ((ob.asks.head?).map (·.amount)))]
    if ob.asks ≠ [] ∧ ob.bids ≠ [] then
      let bid := (ob.bids.headD default).price
      let ask := (ob.asks.headD default).price
      if bid = 0 then
        none
      else
        some (withInd ++ best ++
          [("spread", CellVal.ratVal (ask - bid)),
           ("spread_percent", CellVal.ratVal ((ask - bid) / bid * 100))])
    else
      some (withInd ++ best)

/-!
Indicator arithmetic.

`src/utils/indicators.py` delegates the numeric work to the external `ta`
library over pandas series.  That library is not part of this repository, so
its rolling/exponential window semantics are modelled from the spec (§4.1):
standard rolling-window definitions in which any index with fewer than
`window` available candles carries an absent value (pandas
`min_periods = window` semantics), and the exponential recurrences start at
the beginning of the series (`adjust=False`).  Where the spec calls for a
standard deviation, `Rat.sqrt` stands in for the double-precision square
root: no claim treated here depends on the numeric value of a Bollinger
band, only on which indices are absent.
-/

/-- List of length `n` whose `i`-th element is `f i`. -/
def tabulate (n : ℕ) (f : ℕ → α) : List α := (List.range n).map f

/-- Exponential moving-average recurrence seeded with `y`
(`adjust=False`): each output is `α·x + (1-α)·previous`. -/
def ewmaFrom (a : ℚ) (y : ℚ) : List ℚ → List ℚ
  | [] => []
  | x :: xs =>
    let z := a * x + (1 - a) * y
    z :: ewmaFrom a z xs

/-- Exponential moving average with smoothing factor `a` (`adjust=False`,
first output equal to the first input). -/
def ewma (a : ℚ) : List ℚ → List ℚ
  | [] => []
  | x :: xs => x :: ewmaFrom a x xs

/-- Replacement of the first `k` entries of a series by the absent marker:
pandas `min_periods` masking of a full-length series. -/
def maskFirst (k : ℕ) (xs : List ℚ) : List (Option ℚ) :=
  tabulate xs.length (fun i => if i < k then none else some (xs.getD i 0))

/-- Rolling-window application: at index `i` the aggregate `f` of the window
of the last `w` values ending at `i`, absent while fewer than `w` values are
available (`min_periods = w`). -/
def rollingApply (w : ℕ) (f : List ℚ → ℚ) (xs : List ℚ) : List (Option ℚ) :=
  tabulate xs.length
    (fun i => if i + 1 < w then none
              else some (f ((xs.take (i + 1)).drop (i + 1 - w))))

/-- Simple moving average of window `w` (`ta.trend.sma_indicator`). -/
def sma (w : ℕ) (xs : List ℚ) : List (Option ℚ) :=
  rollingApply w (fun ys => ys.sum / w) xs

/-- Rolling sample standard deviation of window `w` (pandas
`rolling(w).std()`, `ddof = 1`), with `Rat.sqrt` standing in for the
double-precision square root. -/
def rollingStd (w : ℕ) (xs : List ℚ) : List (Option ℚ) :=
  rollingApply w
    (fun ys =>
      Rat.sqrt (((ys.map (fun x => (x - ys.sum / w) ^ 2)).sum) / (w - 1))) xs

/-- Exponential moving average of window `w`
(`ta.trend.ema_indicator`: span `w`, so smoothing factor `2/(w+1)`, absent
for the first `w - 1` indices). -/
def ema (w : ℕ) (xs : List ℚ) : List (Option ℚ) :=
  maskFirst (w - 1) (ewma (2 / (w + 1 : ℚ)) xs)

/-- Pointwise combination of two optional series; absent where either
argument is absent. -/
def optMap2 (f : ℚ → ℚ → ℚ) (a b : List (Option ℚ)) : List (Option ℚ) :=
  tabulate (min a.length b.length)
    (fun i => (a.getD i none).bind (fun x => (b.getD i none).map (f x)))

/-- MACD line: fast EMA minus slow EMA (`ta.trend.MACD.macd`, windows 12
and 26). -/
def macdLine (xs : List ℚ) : List (Option ℚ) :=
  optMap2 (fun x y => x - y) (ema 12 xs) (ema 26 xs)

/-- Number of leading absent entries of an optional series. -/
def leadingNoneCount : List (Option ℚ) → ℕ
  | [] => 0
  | none :: xs => leadingNoneCount xs + 1
  | some _ :: _ => 0

/-- Exponential moving average over a series with a leading absent segment
(pandas `ewm(span=w, min_periods=w)` over a series whose missing values form
a prefix, the shape produced by the MACD line): the recurrence runs over the
present values and the output is absent until `w` of them have been seen. -/
def emaOverOpt (w : ℕ) (m : List (Option ℚ)) : List (Option ℚ) :=
  let k := leadingNoneCount m
  let ys := (m.drop k).filterMap id
  tabulate m.length
    (fun i => if i < k + (w - 1) then none
              else some ((ewma (2 / (w + 1 : ℚ)) ys).getD (i - k) 0))

/-- MACD signal line: EMA of the MACD line with window 9
(`ta.trend.MACD.macd_signal`). -/
def macdSignal (xs : List ℚ) : List (Option ℚ) :=
  emaOverOpt 9 (macdLine xs)

/-- MACD histogram: MACD line minus signal line
(`ta.trend.MACD.macd_diff`). -/
def macdHist (xs : List ℚ) : List (Option ℚ) :=
  optMap2 (fun x y => x - y) (macdLine xs) (macdSignal xs)

/-- First differences of a series: entry `i` is `x (i+1) - x i`. -/
def diffs (xs : List ℚ) : List ℚ :=
  List.zipWith (fun a b => a - b) (xs.drop 1) xs

/-- Wilder relative-strength index of window `w` (`ta.momentum.rsi`):
gain/loss averages by the exponential recurrence with smoothing factor
`1/w` seeded at the series start (the index-0 difference counts as zero),
absent while fewer than `w` values are available, and `100` where the loss
average is zero. -/
def rsi (w : ℕ) (xs : List ℚ) : List (Option ℚ) :=
  let ups := 0 :: (diffs xs).map (fun d => max d 0)
  let downs := 0 :: (diffs xs).map (fun d => max (-d) 0)
  let au := ewma (1 / (w : ℚ)) ups
  let ad := ewma (1 / (w : ℚ)) downs
  tabulate xs.length
    (fun i => if i + 1 < w then none
              else some (if ad.getD i 0 = 0 then 100
                         else 100 - 100 / (1 + au.getD i 0 / ad.getD i 0)))

/-- True range series: at index 0 the high-low span, afterwards the largest
of high-low, |high - previous close| and |low - previous close|. -/
def trueRange (highs lows closes : List ℚ) : List ℚ :=
  tabulate highs.length
    (fun i =>
      if i = 0 then highs.getD 0 0 - lows.getD 0 0
      else
        let pc := closes.getD (i - 1) 0
        max (highs.getD i 0 - lows.getD i 0)
          (max |highs.getD i 0 - pc| |lows.getD i 0 - pc|))

/-- Wilder smoothing continuation: each output is
`(previous·(w-1) + value) / w`. -/
def wilderFrom (w : ℕ) (y : ℚ) : List ℚ → List ℚ
  | [] => []
  | t :: ts =>
    let z := (y * (w - 1) + t) / w
    z :: wilderFrom w z ts

/-- Wilder average true range of window `w`
(`ta.volatility.average_true_range`): absent before index `w - 1`, the plain
mean of the first `w` true ranges at index `w - 1`, then the Wilder
recurrence. -/
def atr (w : ℕ) (highs lows closes : List ℚ) : List (Option ℚ) :=
  let tr := trueRange highs lows closes
  let start := (tr.take w).sum / w
  let vals := start :: wilderFrom w start (tr.drop w)
  tabulate tr.length
    (fun i => if i + 1 < w then none else some (vals.getD (i + 1 - w) 0))

/-- On-balance-volume continuation over (close, volume) pairs given the
previous close and the running sum. -/
def obvFrom (prevClose acc : ℚ) : List (ℚ × ℚ) → List ℚ
  | [] => []
  | (c, v) :: rest =>
    let acc2 := if c < prevClose then acc - v else acc + v
    acc2 :: obvFrom c acc2 rest

/-- On-balance volume (`ta.volume.on_balance_volume`): a running sum of
volumes signed by the close-to-close comparison, seeded with the first
volume.  Present at every index. -/
def obvSeries (closes volumes : List ℚ) : List ℚ :=
  match closes.zip volumes with
  | [] => []
  | (c, v) :: rest => v :: obvFrom c v rest

/-- Columns a `calculate_indicators` run adds to the candle frame, one
optional value per indicator field. -/
structure IndicatorValues where
  sma_20 : Option ℚ
  sma_50 : Option ℚ
  sma_200 : Option ℚ
  ema_12 : Option ℚ
  ema_26 : Option ℚ
  rsi_14 : Option ℚ
  macd : Option ℚ
  macd_signal : Option ℚ
  macd_hist : Option ℚ
  bb_upper : Option ℚ
  bb_middle : Option ℚ
  bb_lower : Option ℚ
  atr_14 : Option ℚ
  obv : Option ℚ
deriving DecidableEq, Repr

/-- Comparison used whenever the pipeline sorts candles by time
(`sort_values('timestamp')`). -/
def tsLe (a b : OHLCV) : Bool := a.timestamp ≤ b.timestamp

/-- Indicator columns of a sorted candle frame, read at row `i`. -/
def indicatorColumnsAt (d : List OHLCV) (i : ℕ) : IndicatorValues :=
  let closes := d.map (·.close)
  { sma_20 := (sma 20 closes).getD i none
    sma_50 := (sma 50 closes).getD i none
    sma_200 := (sma 200 closes).getD i none
    ema_12 := (ema 12 closes).getD i none
    ema_26 := (ema 26 closes).getD i none
    rsi_14 := (rsi 14 closes).getD i none
    macd := (macdLine closes).getD i none
    macd_signal := (macdSignal closes).getD i none
    macd_hist := (macdHist closes).getD i none
    bb_upper := (optMap2 (fun m s => m + 2 * s) (sma 20 closes)
      (rollingStd 20 closes)).getD i none
    bb_middle := (sma 20 closes).getD i none
    bb_lower := (optMap2 (fun m s => m - 2 * s) (sma 20 closes)
      (rollingStd 20 closes)).getD i none
    atr_14 := (atr 14 (d.map (·.high)) (d.map (·.low)) closes).getD i none
    obv := ((obvSeries closes (d.map (·.volume))).map some).getD i none }

/-- Model of `calculate_indicators` (`src/utils/indicators.py`, lines
12-74): sort the frame by `timestamp`, then add the fourteen indicator
columns computed over the sorted close/high/low/volume series.  The numeric
column semantics of the external `ta` library follow the spec (§4.1); see
the section comment above.  An empty frame yields an empty frame. -/
def calculate_indicators (df : List OHLCV) : List (OHLCV × IndicatorValues) :=
  let d := df.mergeSort tsLe
  tabulate d.length (fun i => (d.getD i default, indicatorColumnsAt d i))

/-- Model of `convert_to_technical_indicators` (`src/utils/indicators.py`,
lines 77-105): copy the candle's key fields and every indicator column of
the row into a `TechnicalIndicators` value. -/
def convert_to_technical_indicators (p : OHLCV × IndicatorValues) :
    TechnicalIndicators :=
  { symbol := p.1.symbol
    timeframe := p.1.timeframe
    timestamp := p.1.timestamp
    datetime := p.1.datetime
    sma_20 := p.2.sma_20
    sma_50 := p.2.sma_50
    sma_200 := p.2.sma_200
    ema_12 := p.2.ema_12
    ema_26 := p.2.ema_26
    rsi_14 := p.2.rsi_14
    macd := p.2.macd
    macd_signal := p.2.macd_signal
    macd_hist := p.2.macd_hist
    bb_upper := p.2.bb_upper
    bb_middle := p.2.bb_middle
    bb_lower := p.2.bb_lower
    atr_14 := p.2.atr_14
    obv := p.2.obv }

namespace DataProcessor

/-- Model of `DataProcessor.ohlcv_to_dataframe` (`src/data_processor.py`,
lines 21-45): the candle list as a frame sorted ascending by `timestamp`
(stable sort; an empty list gives an empty frame). -/
def ohlcv_to_dataframe (l : List OHLCV) : List OHLCV :=
  l.mergeSort tsLe

/-- Model of `DataProcessor.calculate_technical_indicators`
(`src/data_processor.py`, lines 47-76): an empty input gives `[]`, otherwise
the frame is sorted, the indicator columns are computed, and every row is
converted to a `TechnicalIndicators` value. -/
def calculate_technical_indicators (l : List OHLCV) :
    List TechnicalIndicators :=
  if l.isEmpty then []
  else (calculate_indicators (ohlcv_to_dataframe l)).map
    convert_to_technical_indicators

/-- Indicator set synthesized by `merge_data` when none is supplied: the
candle's key fields and every indicator field left at its pydantic default
`None`. -/
def emptyIndicators (o : OHLCV) : TechnicalIndicators :=
  { symbol := o.symbol, timeframe := o.timeframe, timestamp := o.timestamp,
    datetime := o.datetime }

/-- Model of `DataProcessor.merge_data` (`src/data_processor.py`, lines
78-105): combine one candle, an optional indicator set (synthesizing an
all-absent one keyed by the candle when omitted) and an optional order-book
snapshot, passed through verbatim. -/
def merge_data (o : OHLCV) (indicators : Option TechnicalIndicators := none)
    (orderbook : Option OrderBook := none) : MarketData :=
  { ohlcv := o, indicators := indicators.getD (emptyIndicators o),
    order_book_snapshot := orderbook }

/-- Python-dict lookup as built by `process_ohlcv_with_indicators`
(`indicators_dict = {indicator.timestamp: indicator for ...}`): scanning the
whole list with later entries overwriting earlier ones. -/
def indicatorsDict (inds : List TechnicalIndicators) (t : ℤ) :
    Option TechnicalIndicators :=
  inds.foldl (fun acc i => if i.timestamp = t then some i else acc) none

/-- Model of `DataProcessor.process_ohlcv_with_indicators`
(`src/data_processor.py`, lines 107-136): compute the indicator sets, index
them by timestamp, and merge each candle - in input order - with the set
found at its own timestamp. -/
def process_ohlcv_with_indicators (l : List OHLCV) : List MarketData :=
  if l.isEmpty then []
  else
    let inds := calculate_technical_indicators l
    l.map (fun o => merge_data o (indicatorsDict inds o.timestamp) none)

end DataProcessor

/-- Lexicographic comparison of the `(symbol, timeframe, timestamp)` key of a
record, the order named by `sort_values(['symbol', 'timeframe',
'timestamp'])`. -/
def keyLe (a b : String × String × ℤ) : Prop :=
  a.1 < b.1 ∨ (a.1 = b.1 ∧ (a.2.1 < b.2.1 ∨ (a.2.1 = b.2.1 ∧ a.2.2 ≤ b.2.2)))

instance (a b : String × String × ℤ) : Decidable (keyLe a b) := by
  unfold keyLe; infer_instance

/-- Sort key of one accumulated record. -/
def recordKey (md : MarketData) : String × String × ℤ :=
  (md.ohlcv.symbol, md.ohlcv.timeframe, md.ohlcv.timestamp)

namespace DataStorage

/-- Model of `DataStorage.save_market_data_list` (`src/data_storage.py`,
lines 99-121): flatten every record with `to_dict` - in list order, with no
sorting step - and hand the rows to `save_to_csv` as one batch.  An empty
input is rejected (`False`); a `to_dict` exception propagates (`none`). -/
def save_market_data_list (l : List MarketData) : Option (List Row) :=
  if l.isEmpty then none
  else l.mapM MarketData.to_dict

/-- Model of `DataStorage.append_to_dataset` (`src/data_storage.py`, lines
123-133): delegates to `save_market_data_list` on the default dataset
path. -/
def append_to_dataset (l : List MarketData) : Option (List Row) :=
  save_market_data_list l

end DataStorage

namespace DataCollector

/-- Predicate picking the records of one `(symbol, timeframe)` pair, the
condition of the backward scan of `collect_data` (`src/main.py`, line
115). -/
def pairMatch (symbol tf : String) (md : MarketData) : Bool :=
  md.ohlcv.symbol = symbol ∧ md.ohlcv.timeframe = tf

/-- Replacement of the first element satisfying `p` by its image under `f`;
the identity when no element matches. -/
def replaceFirst (p : MarketData → Bool) (f : MarketData → MarketData) :
    List MarketData → List MarketData
  | [] => []
  | x :: xs => if p x then f x :: xs else x :: replaceFirst p f xs

/-- Replacement of the last element satisfying `p` by its image under `f`:
the backward scan with `break` of `DataCollector.collect_data`
(`src/main.py`, lines 113-118). -/
def replaceLastMatch (p : MarketData → Bool) (f : MarketData → MarketData)
    (l : List MarketData) : List MarketData :=
  (replaceFirst p f l.reverse).reverse

/-- Assignment of the fetched order book to the record scanned backward
first among those of the given symbol and timeframe (`src/main.py`, lines
113-118); a no-op when no record of that pair exists. -/
def attachOrderbook (symbol tf : String) (ob : OrderBook)
    (l : List MarketData) : List MarketData :=
  replaceLastMatch (pairMatch symbol tf)
    (fun md => { md with order_book_snapshot := some ob }) l

/-- One iteration of the outer symbol loop of `DataCollector.collect_data`
(`src/main.py`, lines 67-118): fetch and process every timeframe of the
symbol, appending the processed records to the accumulator (an empty fetch
contributes nothing, mirroring the `continue`), then fetch the symbol's
order book and - when present - attach it per timeframe by the backward
scan. -/
def processSymbol (timeframes : List String)
    (fetchOHLCV : String → String → List OHLCV)
    (fetchOB : String → Option OrderBook)
    (acc : List MarketData) (symbol : String) : List MarketData :=
  let acc2 := timeframes.foldl
    (fun a tf =>
      a ++ DataProcessor.process_ohlcv_with_indicators (fetchOHLCV symbol tf))
    acc
  match fetchOB symbol with
  | none => acc2
  | some ob => timeframes.foldl (fun a tf => attachOrderbook symbol tf ob a) acc2

/-- Model of the data-collection pass of `DataCollector.collect_data`
(`src/main.py`, lines 64-118): the accumulated record list after the nested
symbol/timeframe loops and the per-symbol order-book attachments, starting
from the empty accumulator.  The exchange collaborators are passed as
functions. -/
def collect_data (symbols timeframes : List String)
    (fetchOHLCV : String → String → List OHLCV)
    (fetchOB : String → Option OrderBook) : List MarketData :=
  symbols.foldl (processSymbol timeframes fetchOHLCV fetchOB) []

/-- Batch of rows handed to the storage sink by `collect_data`
(`src/main.py`, line 127: `append_to_dataset(all_market_data)`). -/
def sinkBatch (symbols timeframes : List String)
    (fetchOHLCV : String → String → List OHLCV)
    (fetchOB : String → Option OrderBook) : Option (List Row) :=
  DataStorage.append_to_dataset (collect_data symbols timeframes fetchOHLCV fetchOB)

end DataCollector

namespace DataCollector

/-- Assignment of a snapshot to the last record of a list (identity on
`[]`): what the backward scan of `collect_data` does to the segment of
records of one `(symbol, timeframe)` pair. -/
def markLast (ob : OrderBook) (l : List MarketData) : List MarketData :=
  (List.modifyHead (fun md => { md with order_book_snapshot := some ob })
    l.reverse).reverse

/-- Records contributed by one `(symbol, timeframe)` pair to the final
accumulated list: the processed fetch result, whose last record carries the
symbol's order-book snapshot when one was fetched. -/
def pairSegment (fetchOHLCV : String → String → List OHLCV)
    (fetchOB : String → Option OrderBook) (symbol tf : String) :
    List MarketData :=
  let p := DataProcessor.process_ohlcv_with_indicators (fetchOHLCV symbol tf)
  match fetchOB symbol with
  | none => p
  | some ob => markLast ob p

/-- Records contributed by one symbol's whole loop iteration: every
timeframe's processed fetch result concatenated in configured order, with
the symbol's order-book snapshot - when fetched - attached per timeframe by
the backward scan. -/
def symbolBlock (timeframes : List String)
    (fetchOHLCV : String → String → List OHLCV)
    (fetchOB : String → Option OrderBook) (symbol : String) :
    List MarketData :=
  let raw := timeframes.flatMap (fun tf =>
    DataProcessor.process_ohlcv_with_indicators (fetchOHLCV symbol tf))
  match fetchOB symbol with
  | none => raw
  | some ob =>
    timeframes.foldl (fun a tf => attachOrderbook symbol tf ob a) raw

end DataCollector

/-- Lookup of a column value in a flattened row (first occurrence, and every
row built by `to_dict` has pairwise-distinct keys). -/
def rowCell (k : String) : Row → Option CellVal
  | [] => none
  | (k', v) :: r => if k' = k then some v else rowCell k r

/-- Candle used for the concrete instances below. -/
def testCandle (sym tf : String) (ts : ℤ) (cl : ℚ) : OHLCV :=
  { timestamp := ts, datetime := ts, open_ := cl, high := cl + 1,
    low := cl - 1, close := cl, volume := 10, symbol := sym, timeframe := tf }

/-- Order-book snapshot used for the concrete instances below. -/
def testBook (bids asks : List OrderBookLevel) : OrderBook :=
  { timestamp := 9, datetime := 9, symbol := "BTC/USDT", bids := bids,
    asks := asks }

/-- Enriched record used for the concrete instances below. -/
def testRecord (ob : Option OrderBook) : MarketData :=
  { ohlcv := testCandle "BTC/USDT" "1h" 1 5,
    indicators := DataProcessor.emptyIndicators (testCandle "BTC/USDT" "1h" 1 5),
    order_book_snapshot := ob }

/-- Indicator set whose key deliberately disagrees with `testCandle`'s
key (timestamp 2 against 1). -/
def mismatchedIndicators : TechnicalIndicators :=
  { symbol := "BTC/USDT", timeframe := "1h", timestamp := 2, datetime := 2 }

/-!  Helper lemmas about `tabulate`. -/

theorem length_tabulate (n : ℕ) (f : ℕ → α) : (tabulate n f).length = n := by
  simp [tabulate]

theorem getD_tabulate {n i : ℕ} (f : ℕ → α) (h : i < n) (d : α) :
    (tabulate n f).getD i d = f i := by
  simp [tabulate, List.getD_eq_getElem?_getD, List.getElem?_map,
    List.getElem?_range h]

theorem getD_tabulate_of_ge {n i : ℕ} (f : ℕ → α) (h : n ≤ i) (d : α) :
    (tabulate n f).getD i d = d := by
  apply List.getD_eq_default
  simpa [length_tabulate] using h

theorem tabulate_eq_replicate {n : ℕ} {f : ℕ → α} {a : α}
    (h : ∀ i < n, f i = a) : tabulate n f = List.replicate n a := by
  rw [List.eq_replicate_iff]
  refine ⟨length_tabulate n f, ?_⟩
  intro b hb
  simp only [tabulate, List.mem_map, List.mem_range] at hb
  obtain ⟨i, hi, rfl⟩ := hb
  exact h i hi

theorem map_tabulate (n : ℕ) (f : ℕ → α) (g : α → β) :
    (tabulate n f).map g = tabulate n (fun i => g (f i)) := by
  simp [tabulate, List.map_map]

theorem mem_tabulate {n : ℕ} {f : ℕ → α} {x : α} :
    x ∈ tabulate n f ↔ ∃ i < n, f i = x := by
  simp [tabulate]

/-!  Length preservation of the indicator columns. -/

theorem length_ewmaFrom (a y : ℚ) (xs : List ℚ) :
    (ewmaFrom a y xs).length = xs.length := by
  induction xs generalizing y with
  | nil => rfl
  | cons x xs ih => simp [ewmaFrom, ih]

theorem length_ewma (a : ℚ) (xs : List ℚ) : (ewma a xs).length = xs.length := by
  cases xs with
  | nil => rfl
  | cons x xs => simp [ewma, length_ewmaFrom]

theorem length_maskFirst (k : ℕ) (xs : List ℚ) :
    (maskFirst k xs).length = xs.length := length_tabulate _ _

theorem length_rollingApply (w : ℕ) (f : List ℚ → ℚ) (xs : List ℚ) :
    (rollingApply w f xs).length = xs.length := length_tabulate _ _

theorem length_sma (w : ℕ) (xs : List ℚ) : (sma w xs).length = xs.length :=
  length_rollingApply _ _ _

theorem length_rollingStd (w : ℕ) (xs : List ℚ) :
    (rollingStd w xs).length = xs.length := length_rollingApply _ _ _

theorem length_ema (w : ℕ) (xs : List ℚ) : (ema w xs).length = xs.length := by
  simp [ema, length_maskFirst, length_ewma]

theorem length_optMap2 (f : ℚ → ℚ → ℚ) (a b : List (Option ℚ)) :
    (optMap2 f a b).length = min a.length b.length := length_tabulate _ _

theorem length_macdLine (xs : List ℚ) : (macdLine xs).length = xs.length := by
  simp [macdLine, length_optMap2, length_ema]

theorem length_emaOverOpt (w : ℕ) (m : List (Option ℚ)) :
    (emaOverOpt w m).length = m.length := length_tabulate _ _

theorem length_macdSignal (xs : List ℚ) :
    (macdSignal xs).length = xs.length := by
  simp [macdSignal, length_emaOverOpt, length_macdLine]

theorem length_trueRange (highs lows closes : List ℚ) :
    (trueRange highs lows closes).length = highs.length := length_tabulate _ _

/-!  Absence patterns of the indicator columns on short series. -/

theorem sma_getD_none {w : ℕ} {xs : List ℚ} (hw : xs.length < w) {i : ℕ}
    (hi : i < xs.length) : (sma w xs).getD i none = none := by
  unfold sma rollingApply
  rw [getD_tabulate _ hi]
  have h : i + 1 < w := by omega
  simp [h]

theorem ema_getD_none {w : ℕ} {xs : List ℚ} (hw : xs.length < w) {i : ℕ}
    (hi : i < xs.length) : (ema w xs).getD i none = none := by
  unfold ema maskFirst
  rw [getD_tabulate]
  · have h : i < w - 1 := by omega
    simp [h]
  · rw [length_ewma]; exact hi

theorem optMap2_getD_none_right {f : ℚ → ℚ → ℚ} {a b : List (Option ℚ)}
    {i : ℕ} (hi : i < min a.length b.length) (hb : b.getD i none = none) :
    (optMap2 f a b).getD i none = none := by
  unfold optMap2
  rw [getD_tabulate _ hi, hb]
  cases a.getD i none <;> rfl

theorem macdLine_getD_none {xs : List ℚ} (hw : xs.length < 26) {i : ℕ}
    (hi : i < xs.length) : (macdLine xs).getD i none = none := by
  unfold macdLine
  apply optMap2_getD_none_right
  · simp [length_ema]; exact hi
  · exact ema_getD_none hw hi

theorem macdSignal_getD_none {xs : List ℚ} (hw : xs.length < 9) {i : ℕ}
    (hi : i < xs.length) : (macdSignal xs).getD i none = none := by
  unfold macdSignal emaOverOpt
  rw [getD_tabulate]
  · have h : i < leadingNoneCount (macdLine xs) + (9 - 1) := by omega
    simp [h]
  · rw [length_macdLine]; exact hi

theorem macdHist_getD_none {xs : List ℚ} (hw : xs.length < 9) {i : ℕ}
    (hi : i < xs.length) : (macdHist xs).getD i none = none := by
  unfold macdHist
  apply optMap2_getD_none_right
  · simp [length_macdLine, length_macdSignal]; exact hi
  · exact macdSignal_getD_none hw hi

theorem rsi_getD_none {w : ℕ} {xs : List ℚ} (hw : xs.length < w) {i : ℕ}
    (hi : i < xs.length) : (rsi w xs).getD i none = none := by
  unfold rsi
  rw [getD_tabulate _ hi]
  have h : i + 1 < w := by omega
  simp [h]

theorem atr_getD_none {w : ℕ} {highs lows closes : List ℚ}
    (hw : highs.length < w) {i : ℕ} (hi : i < highs.length) :
    (atr w highs lows closes).getD i none = none := by
  unfold atr
  rw [getD_tabulate]
  · have h : i + 1 < w := by omega
    simp [h]
  · rw [length_trueRange]; exact hi

theorem rollingStd_getD_none {w : ℕ} {xs : List ℚ} (hw : xs.length < w)
    {i : ℕ} (hi : i < xs.length) : (rollingStd w xs).getD i none = none := by
  unfold rollingStd rollingApply
  rw [getD_tabulate _ hi]
  have h : i + 1 < w := by omega
  simp [h]

/-!  Shape of `calculate_technical_indicators`. -/

theorem length_calcTI (l : List OHLCV) :
    (DataProcessor.calculate_technical_indicators l).length = l.length := by
  by_cases hl : l.isEmpty
  · rw [List.isEmpty_iff] at hl; subst hl
    simp [DataProcessor.calculate_technical_indicators]
  · unfold DataProcessor.calculate_technical_indicators
    rw [if_neg hl]
    unfold calculate_indicators DataProcessor.ohlcv_to_dataframe
    simp [length_tabulate, List.length_mergeSort]

theorem calcTI_map_replicate (l : List OHLCV)
    (g : TechnicalIndicators → Option ℚ)
    (h : ∀ d : List OHLCV, d.length = l.length → ∀ i < l.length,
      g (convert_to_technical_indicators
        (d.getD i default, indicatorColumnsAt d i)) = none) :
    (DataProcessor.calculate_technical_indicators l).map g =
      List.replicate l.length none := by
  by_cases hl : l.isEmpty
  · rw [List.isEmpty_iff] at hl; subst hl
    simp [DataProcessor.calculate_technical_indicators]
  · unfold DataProcessor.calculate_technical_indicators
    rw [if_neg hl]
    unfold calculate_indicators DataProcessor.ohlcv_to_dataframe
    rw [List.map_map, map_tabulate]
    have hd : ((l.mergeSort tsLe).mergeSort tsLe).length = l.length := by
      rw [List.length_mergeSort, List.length_mergeSort]
    rw [hd]
    apply tabulate_eq_replicate
    intro i hi
    simp only [Function.comp]
    exact h _ hd i hi

/-- C1: for every candle series shorter than an indicator's window, the
indicator-computation step yields that indicator absent (`none`, not zero)
at every element of the output, for every windowed indicator field, and the
computation is total, returning one output per input candle (no error).
Windows: sma_20/bb 20, sma_50 50, sma_200 200, ema_12 12, ema_26/macd 26,
macd_signal/macd_hist 9, rsi_14/atr_14 14. -/
theorem spec_C1 (l : List OHLCV) :
    (DataProcessor.calculate_technical_indicators l).length = l.length ∧
    (l.length < 20 →
      (DataProcessor.calculate_technical_indicators l).map (·.sma_20) =
        List.replicate l.length none ∧
      (DataProcessor.calculate_technical_indicators l).map (·.bb_upper) =
        List.replicate l.length none ∧
      (DataProcessor.calculate_technical_indicators l).map (·.bb_middle) =
        List.replicate l.length none ∧
      (DataProcessor.calculate_technical_indicators l).map (·.bb_lower) =
        List.replicate l.length none) ∧
    (l.length < 50 →
      (DataProcessor.calculate_technical_indicators l).map (·.sma_50) =
        List.replicate l.length none) ∧
    (l.length < 200 →
      (DataProcessor.calculate_technical_indicators l).map (·.sma_200) =
        List.replicate l.length none) ∧
    (l.length < 12 →
      (DataProcessor.calculate_technical_indicators l).map (·.ema_12) =
        List.replicate l.length none) ∧
    (l.length < 26 →
      (DataProcessor.calculate_technical_indicators l).map (·.ema_26) =
        List.replicate l.length none ∧
      (DataProcessor.calculate_technical_indicators l).map (·.macd) =
        List.replicate l.length none) ∧
    (l.length < 9 →
      (DataProcessor.calculate_technical_indicators l).map (·.macd_signal) =
        List.replicate l.length none ∧
      (DataProcessor.calculate_technical_indicators l).map (·.macd_hist) =
        List.replicate l.length none) ∧
    (l.length < 14 →
      (DataProcessor.calculate_technical_indicators l).map (·.rsi_14) =
        List.replicate l.length none ∧
      (DataProcessor.calculate_technical_indicators l).map (·.atr_14) =
        List.replicate l.length none) := by
  refine ⟨length_calcTI l, fun hw => ⟨?_, ?_, ?_, ?_⟩, fun hw => ?_,
    fun hw => ?_, fun hw => ?_, fun hw => ⟨?_, ?_⟩, fun hw => ⟨?_, ?_⟩,
    fun hw => ⟨?_, ?_⟩⟩
  all_goals apply calcTI_map_replicate
  all_goals intro d hd i hi
  all_goals simp only [convert_to_technical_indicators, indicatorColumnsAt]
  · exact sma_getD_none (by simpa [hd] using hw) (by simpa [hd] using hi)
  · apply optMap2_getD_none_right
    · simpa [length_sma, length_rollingStd, hd] using hi
    · exact rollingStd_getD_none (by simpa [hd] using hw) (by simpa [hd] using hi)
  · exact sma_getD_none (by simpa [hd] using hw) (by simpa [hd] using hi)
  · apply optMap2_getD_none_right
    · simpa [length_sma, length_rollingStd, hd] using hi
    · exact rollingStd_getD_none (by simpa [hd] using hw) (by simpa [hd] using hi)
  · exact sma_getD_none (by simpa [hd] using hw) (by simpa [hd] using hi)
  · exact sma_getD_none (by simpa [hd] using hw) (by simpa [hd] using hi)
  · exact ema_getD_none (by simpa [hd] using hw) (by simpa [hd] using hi)
  · exact ema_getD_none (by simpa [hd] using hw) (by simpa [hd] using hi)
  · exact macdLine_getD_none (by simpa [hd] using hw) (by simpa [hd] using hi)
  · exact macdSignal_getD_none (by simpa [hd] using hw) (by simpa [hd] using hi)
  · exact macdHist_getD_none (by simpa [hd] using hw) (by simpa [hd] using hi)
  · exact rsi_getD_none (by simpa [hd] using hw) (by simpa [hd] using hi)
  · exact atr_getD_none (by simpa [hd] using hw) (by simpa [hd] using hi)

/-- Witness for C1 at the one-candle series: every windowed indicator is
absent. -/
theorem spec_C1_witness :
    (DataProcessor.calculate_technical_indicators
      [testCandle "BTC/USDT" "1h" 1 5]).length = 1 ∧
    (DataProcessor.calculate_technical_indicators
      [testCandle "BTC/USDT" "1h" 1 5]).map (·.sma_20) =
      List.replicate 1 none ∧
    (DataProcessor.calculate_technical_indicators
      [testCandle "BTC/USDT" "1h" 1 5]).map (·.macd_signal) =
      List.replicate 1 none ∧
    (DataProcessor.calculate_technical_indicators
      [testCandle "BTC/USDT" "1h" 1 5]).map (·.rsi_14) =
      List.replicate 1 none ∧
    (DataProcessor.calculate_technical_indicators
      [testCandle "BTC/USDT" "1h" 1 5]).map (·.atr_14) =
      List.replicate 1 none := by
  have h := spec_C1 [testCandle "BTC/USDT" "1h" 1 5]
  exact ⟨h.1, (h.2.1 (by decide)).1, (h.2.2.2.2.2.2.1 (by decide)).1,
    (h.2.2.2.2.2.2.2 (by decide)).1, (h.2.2.2.2.2.2.2 (by decide)).2⟩

/-- C2 (counterexample): for a record whose snapshot is present with empty
bids, the flattened row does contain the `best_bid_price` column - present
with the null marker - contradicting the claim that the key is omitted
entirely. -/
theorem spec_C2_cex :
    "best_bid_price" ∈
      ((MarketData.to_dict (testRecord (some (testBook [] [⟨1, 2⟩])))).getD
        []).map Prod.fst ∧
    (MarketData.to_dict (testRecord (some (testBook [] [⟨1, 2⟩])))).bind
      (rowCell "best_bid_price") = some CellVal.nullVal := by
  decide

/-- C2 (amended): when the snapshot is present but a side is empty, the four
`best_*` columns are all present - the empty side's carrying the null
marker, not omitted - and only the two spread columns are omitted. -/
theorem spec_C2 (md : MarketData) (ob : OrderBook)
    (h : md.order_book_snapshot = some ob)
    (he : ob.bids = [] ∨ ob.asks = []) :
    (MarketData.to_dict md).map (fun r => r.map Prod.fst) =
      some (baseKeys ++ indicatorKeys ++ bestKeys) ∧
    (ob.bids = [] →
      (MarketData.to_dict md).bind (rowCell "best_bid_price") =
        some CellVal.nullVal ∧
      (MarketData.to_dict md).bind (rowCell "best_bid_amount") =
        some CellVal.nullVal) ∧
    (ob.asks = [] →
      (MarketData.to_dict md).bind (rowCell "best_ask_price") =
        some CellVal.nullVal ∧
      (MarketData.to_dict md).bind (rowCell "best_ask_amount") =
        some CellVal.nullVal) ∧
    "spread" ∉ ((MarketData.to_dict md).getD []).map Prod.fst ∧
    "spread_percent" ∉ ((MarketData.to_dict md).getD []).map Prod.fst := by
  have hcond : ¬(ob.asks ≠ [] ∧ ob.bids ≠ []) := by
    rcases he with he | he <;> simp [he]
  refine ⟨?_, ?_, ?_, ?_, ?_⟩
  · simp [MarketData.to_dict, h, hcond, indicatorCells, baseKeys,
      indicatorKeys, bestKeys]
  · intro hb
    constructor <;>
      simp [MarketData.to_dict, h, hcond, hb, rowCell, indicatorCells, optCell]
  · intro ha
    constructor <;>
      simp [MarketData.to_dict, h, hcond, ha, rowCell, indicatorCells, optCell]
  · simp [MarketData.to_dict, h, hcond, indicatorCells]
  · simp [MarketData.to_dict, h, hcond, indicatorCells]

/-- Witness for the amended C2 at a concrete empty-bids snapshot. -/
theorem spec_C2_witness :
    (MarketData.to_dict (testRecord (some (testBook [] [⟨1, 2⟩])))).map
      (fun r => r.map Prod.fst) =
      some (baseKeys ++ indicatorKeys ++ bestKeys) ∧
    (MarketData.to_dict (testRecord (some (testBook [] [⟨1, 2⟩])))).bind
      (rowCell "best_bid_amount") = some CellVal.nullVal := by
  have h := spec_C2 (testRecord (some (testBook [] [⟨1, 2⟩])))
    (testBook [] [⟨1, 2⟩]) rfl (Or.inl rfl)
  exact ⟨h.1, (h.2.1 rfl).2⟩

/-- C5 (counterexample): on a record whose best bid price is zero (both
sides non-empty), `to_dict` raises `ZeroDivisionError` (modelled as `none`,
producing no row), contradicting the claim that it does not raise and
treats `spread_percent` as absent. -/
theorem spec_C5_cex :
    MarketData.to_dict (testRecord (some (testBook [⟨0, 1⟩] [⟨1, 2⟩]))) =
      none := by
  rfl

/-- C5 (amended): with a present snapshot, non-empty sides and a zero best
bid price, the unguarded division makes `to_dict` raise
`ZeroDivisionError`; no row (and hence no absent `spread_percent` cell) is
produced. -/
theorem spec_C5 (md : MarketData) (ob : OrderBook)
    (h : md.order_book_snapshot = some ob) (hb : ob.bids ≠ [])
    (ha : ob.asks ≠ []) (hz : (ob.bids.headD default).price = 0) :
    MarketData.to_dict md = none := by
  simp only [List.headD_eq_head?_getD] at hz
  simp [MarketData.to_dict, h, ha, hb, hz]

/-- Witness for the amended C5 at a concrete zero-bid snapshot. -/
theorem spec_C5_witness :
    MarketData.to_dict (testRecord (some (testBook [⟨0, 5⟩] [⟨3, 1⟩]))) =
      none :=
  spec_C5 (testRecord (some (testBook [⟨0, 5⟩] [⟨3, 1⟩])))
    (testBook [⟨0, 5⟩] [⟨3, 1⟩]) rfl (by decide) (by decide) (by decide)

/-- C7 (counterexample): `merge_data` uses a supplied indicator set
verbatim, with no key check, so a record produced by `merge` can carry an
indicator set whose timestamp differs from its candle's. -/
theorem spec_C7_cex :
    (DataProcessor.merge_data (testCandle "BTC/USDT" "1h" 1 5)
      (some mismatchedIndicators) none).indicators.timestamp = 2 ∧
    (DataProcessor.merge_data (testCandle "BTC/USDT" "1h" 1 5)
      (some mismatchedIndicators) none).ohlcv.timestamp = 1 :=
  ⟨rfl, rfl⟩

/-- C7 (amended): with the indicator-set argument omitted, `merge_data`
synthesizes a set carrying exactly the candle's key with every indicator
field absent (so the key-match invariant holds in that case); a supplied
set is passed through verbatim, unchecked. -/
theorem spec_C7 (o : OHLCV) (ob : Option OrderBook)
    (ind : TechnicalIndicators) :
    (DataProcessor.merge_data o none ob).indicators =
      DataProcessor.emptyIndicators o ∧
    (DataProcessor.emptyIndicators o).symbol = o.symbol ∧
    (DataProcessor.emptyIndicators o).timeframe = o.timeframe ∧
    (DataProcessor.emptyIndicators o).timestamp = o.timestamp ∧
    (DataProcessor.emptyIndicators o).sma_20 = none ∧
    (DataProcessor.emptyIndicators o).sma_50 = none ∧
    (DataProcessor.emptyIndicators o).sma_200 = none ∧
    (DataProcessor.emptyIndicators o).ema_12 = none ∧
    (DataProcessor.emptyIndicators o).ema_26 = none ∧
    (DataProcessor.emptyIndicators o).rsi_14 = none ∧
    (DataProcessor.emptyIndicators o).macd = none ∧
    (DataProcessor.emptyIndicators o).macd_signal = none ∧
    (DataProcessor.emptyIndicators o).macd_hist = none ∧
    (DataProcessor.emptyIndicators o).bb_upper = none ∧
    (DataProcessor.emptyIndicators o).bb_middle = none ∧
    (DataProcessor.emptyIndicators o).bb_lower = none ∧
    (DataProcessor.emptyIndicators o).atr_14 = none ∧
    (DataProcessor.emptyIndicators o).obv = none ∧
    (DataProcessor.merge_data o none ob).ohlcv = o ∧
    (DataProcessor.merge_data o none ob).order_book_snapshot = ob ∧
    (DataProcessor.merge_data o (some ind) ob).indicators = ind :=
  ⟨rfl, rfl, rfl, rfl, rfl, rfl, rfl, rfl, rfl, rfl, rfl, rfl, rfl, rfl,
   rfl, rfl, rfl, rfl, rfl, rfl, rfl⟩

/-- C9: with a present snapshot, non-empty sides, and a non-zero best bid,
the flattened row satisfies spread = best ask price minus best bid price and
spread_percent = spread / best bid price times 100. -/
theorem spec_C9 (md : MarketData) (ob : OrderBook)
    (h : md.order_book_snapshot = some ob) (hb : ob.bids ≠ [])
    (ha : ob.asks ≠ []) (hz : (ob.bids.headD default).price ≠ 0) :
    (MarketData.to_dict md).bind (rowCell "spread") =
      some (CellVal.ratVal
        ((ob.asks.headD default).price - (ob.bids.headD default).price)) ∧
    (MarketData.to_dict md).bind (rowCell "spread_percent") =
      some (CellVal.ratVal
        (((ob.asks.headD default).price - (ob.bids.headD default).price) /
          (ob.bids.headD default).price * 100)) := by
  simp only [List.headD_eq_head?_getD] at hz ⊢
  constructor <;>
    simp [MarketData.to_dict, h, ha, hb, hz, rowCell, indicatorCells]

/-- Witness for C9 at bid 100.0, ask 100.5: spread 0.5, spread_percent
0.5. -/
theorem spec_C9_witness :
    (MarketData.to_dict
      (testRecord (some (testBook [⟨100, 1⟩] [⟨201/2, 2⟩])))).bind
      (rowCell "spread") = some (CellVal.ratVal (1/2)) ∧
    (MarketData.to_dict
      (testRecord (some (testBook [⟨100, 1⟩] [⟨201/2, 2⟩])))).bind
      (rowCell "spread_percent") = some (CellVal.ratVal (1/2)) := by
  have h := spec_C9 (testRecord (some (testBook [⟨100, 1⟩] [⟨201/2, 2⟩])))
    (testBook [⟨100, 1⟩] [⟨201/2, 2⟩]) rfl (by decide) (by decide) (by decide)
  constructor
  · rw [h.1]; norm_num [testBook]
  · rw [h.2]; norm_num [testBook]

/-- C8: the flattened row contains the nine OHLCV columns, then every
indicator field in declaration order (absent fields serialized as the null
marker, never as a number), then the order-book columns only when a
snapshot is present (all six of them in the non-degenerate case). -/
theorem spec_C8 (md : MarketData) :
    (md.order_book_snapshot = none →
      (MarketData.to_dict md).map (fun r => r.map Prod.fst) =
        some (baseKeys ++ indicatorKeys)) ∧
    (∀ ob, md.order_book_snapshot = some ob → ob.bids ≠ [] → ob.asks ≠ [] →
      (ob.bids.headD default).price ≠ 0 →
      (MarketData.to_dict md).map (fun r => r.map Prod.fst) =
        some (baseKeys ++ indicatorKeys ++ bestKeys ++ spreadKeys)) ∧
    (∀ r, MarketData.to_dict md = some r → ∀ k ∈ bestKeys ++ spreadKeys,
      k ∈ r.map Prod.fst → md.order_book_snapshot.isSome) ∧
    (∀ r, MarketData.to_dict md = some r →
      rowCell "sma_20" r = some (optCell md.indicators.sma_20) ∧
      rowCell "sma_50" r = some (optCell md.indicators.sma_50) ∧
      rowCell "sma_200" r = some (optCell md.indicators.sma_200) ∧
      rowCell "ema_12" r = some (optCell md.indicators.ema_12) ∧
      rowCell "ema_26" r = some (optCell md.indicators.ema_26) ∧
      rowCell "rsi_14" r = some (optCell md.indicators.rsi_14) ∧
      rowCell "macd" r = some (optCell md.indicators.macd) ∧
      rowCell "macd_signal" r = some (optCell md.indicators.macd_signal) ∧
      rowCell "macd_hist" r = some (optCell md.indicators.macd_hist) ∧
      rowCell "bb_upper" r = some (optCell md.indicators.bb_upper) ∧
      rowCell "bb_middle" r = some (optCell md.indicators.bb_middle) ∧
      rowCell "bb_lower" r = some (optCell md.indicators.bb_lower) ∧
      rowCell "atr_14" r = some (optCell md.indicators.atr_14) ∧
      rowCell "obv" r = some (optCell md.indicators.obv)) ∧
    optCell none = CellVal.nullVal ∧
    (∀ q : ℚ, optCell none ≠ CellVal.ratVal q) := by
  refine ⟨?_, ?_, ?_, ?_, rfl, ?_⟩
  · intro h
    simp [MarketData.to_dict, h, indicatorCells, baseKeys, indicatorKeys]
  · intro ob h hb ha hz
    simp only [List.headD_eq_head?_getD] at hz
    simp [MarketData.to_dict, h, hb, ha, hz, indicatorCells, baseKeys,
      indicatorKeys, bestKeys, spreadKeys]
  · intro r hr k hk hkr
    rcases hob : md.order_book_snapshot with _ | ob
    · simp only [MarketData.to_dict, hob] at hr
      rw [Option.some_inj] at hr
      subst hr
      simp [bestKeys, spreadKeys] at hk
      rcases hk with rfl | rfl | rfl | rfl | rfl | rfl <;>
        · exfalso
          revert hkr
          simp [indicatorCells]
    · simp
  · intro r hr
    rcases hob : md.order_book_snapshot with _ | ob
    · simp only [MarketData.to_dict, hob, Option.some_inj] at hr
      subst hr
      simp [rowCell, indicatorCells]
    · simp only [MarketData.to_dict, hob] at hr
      split_ifs at hr with h1 h2
      all_goals
        first
        | exact Option.noConfusion hr
        | (rw [Option.some_inj] at hr
           subst hr
           simp [rowCell, indicatorCells])
  · intro q hq
    simp [optCell] at hq

/-- Witness for C8 at a snapshot-free record and at a full snapshot. -/
theorem spec_C8_witness :
    (MarketData.to_dict (testRecord none)).map (fun r => r.map Prod.fst) =
      some (baseKeys ++ indicatorKeys) ∧
    (MarketData.to_dict
      (testRecord (some (testBook [⟨100, 1⟩] [⟨101, 2⟩])))).map
      (fun r => r.map Prod.fst) =
      some (baseKeys ++ indicatorKeys ++ bestKeys ++ spreadKeys) :=
  ⟨(spec_C8 (testRecord none)).1 rfl,
   (spec_C8 (testRecord (some (testBook [⟨100, 1⟩] [⟨101, 2⟩])))).2.1
     (testBook [⟨100, 1⟩] [⟨101, 2⟩]) rfl (by decide) (by decide) (by decide)⟩

theorem tsLe_trans : ∀ a b c : OHLCV, tsLe a b → tsLe b c → tsLe a c := by
  intro a b c
  simp only [tsLe, decide_eq_true_eq]
  omega

theorem tsLe_total : ∀ a b : OHLCV, tsLe a b || tsLe b a := by
  intro a b
  simp only [tsLe, Bool.or_eq_true, decide_eq_true_eq]
  omega

theorem mergeSort_tsLe_sorted (l : List OHLCV) :
    (l.mergeSort tsLe).Pairwise (fun a b => tsLe a b = true) :=
  List.sorted_mergeSort tsLe_trans tsLe_total l

theorem mergeSort_tsLe_idem (l : List OHLCV) :
    (l.mergeSort tsLe).mergeSort tsLe = l.mergeSort tsLe :=
  List.mergeSort_of_sorted (mergeSort_tsLe_sorted l)

theorem chain'_ts_pairwise {l : List OHLCV}
    (h : List.Chain' (fun a b => a.timestamp < b.timestamp) l) :
    l.Pairwise (fun a b => a.timestamp < b.timestamp) := by
  haveI : IsTrans OHLCV (fun a b => a.timestamp < b.timestamp) :=
    ⟨fun _ _ _ h1 h2 => lt_trans h1 h2⟩
  rw [List.chain'_iff_pairwise] at h
  exact h

theorem mergeSort_eq_of_chain {l : List OHLCV}
    (h : List.Chain' (fun a b => a.timestamp < b.timestamp) l) :
    l.mergeSort tsLe = l := by
  apply List.mergeSort_of_sorted
  apply (chain'_ts_pairwise h).imp
  intro a b hab
  simp [tsLe]
  omega

theorem nodup_ts_of_chain {l : List OHLCV}
    (h : List.Chain' (fun a b => a.timestamp < b.timestamp) l) :
    (l.map (·.timestamp)).Nodup :=
  List.Pairwise.map _ (fun _ _ hab => ne_of_lt hab) (chain'_ts_pairwise h)

theorem mergeSort_eq_of_perm {xs ys : List OHLCV} (hperm : xs.Perm ys)
    (hnd : (xs.map (·.timestamp)).Nodup) :
    xs.mergeSort tsLe = ys.mergeSort tsLe := by
  letI : IsAntisymm OHLCV (fun a b => a.timestamp < b.timestamp) :=
    ⟨fun _ _ h1 h2 => absurd h2 (lt_asymm h1)⟩
  apply List.eq_of_perm_of_sorted
    (r := fun a b : OHLCV => a.timestamp < b.timestamp)
  · exact ((List.mergeSort_perm xs tsLe).trans hperm).trans
      (List.mergeSort_perm ys tsLe).symm
  · apply List.Pairwise.imp₂ (fun a b hle hne => lt_of_le_of_ne hle hne)
    · exact (mergeSort_tsLe_sorted xs).imp (by simp [tsLe])
    · have : ((xs.mergeSort tsLe).map (·.timestamp)).Nodup :=
        hnd.perm ((List.mergeSort_perm xs tsLe).map _).symm
      exact (List.pairwise_map.mp this)
  · apply List.Pairwise.imp₂ (fun a b hle hne => lt_of_le_of_ne hle hne)
    · exact (mergeSort_tsLe_sorted ys).imp (by simp [tsLe])
    · have hys : (ys.map (·.timestamp)).Nodup := hnd.perm (hperm.map _)
      have : ((ys.mergeSort tsLe).map (·.timestamp)).Nodup :=
        hys.perm ((List.mergeSort_perm ys tsLe).map _).symm
      exact (List.pairwise_map.mp this)

theorem getD_map_of_lt (l : List α) (f : α → β) {i : ℕ} (hi : i < l.length)
    (d : β) (d' : α) : (l.map f).getD i d = f (l.getD i d') := by
  rw [List.getD_eq_getElem?_getD, List.getD_eq_getElem?_getD,
    List.getElem?_map, List.getElem?_eq_getElem hi]
  simp

theorem indicatorsDict_of_mem {inds : List TechnicalIndicators}
    {x : TechnicalIndicators} (hnd : (inds.map (·.timestamp)).Nodup)
    (hx : x ∈ inds) :
    DataProcessor.indicatorsDict inds x.timestamp = some x := by
  induction inds using List.reverseRecOn with
  | nil => cases hx
  | append_singleton l a ih =>
    unfold DataProcessor.indicatorsDict at ih ⊢
    rw [List.foldl_append]
    simp only [List.foldl_cons, List.foldl_nil]
    rw [List.map_append, List.nodup_append] at hnd
    rcases List.mem_append.mp hx with h | h
    · have hne : ¬(a.timestamp = x.timestamp) := by
        intro he
        exact hnd.2.2 (List.mem_map_of_mem _ h) (by simp [he])
      rw [if_neg hne]
      exact ih hnd.1 h
    · simp only [List.mem_singleton] at h
      subst h
      rw [if_pos rfl]

theorem getElem_tabulate (n : ℕ) (f : ℕ → α) (i : ℕ) (h : i < (tabulate n f).length) :
    (tabulate n f)[i] = f i := by
  simp [tabulate]

theorem map_eq_tabulate (l : List α) (f : α → β) (d : α) :
    l.map f = tabulate l.length (fun i => f (l.getD i d)) := by
  apply List.ext_getElem (by simp [length_tabulate])
  intro i h1 h2
  rw [getElem_tabulate]
  rw [List.getElem_map, List.getD_eq_getElem?_getD]
  rw [List.getElem?_eq_getElem (by simpa [length_tabulate] using h2)]
  simp

theorem getD_mem_of_lt (l : List α) {i : ℕ} (hi : i < l.length) (d : α) :
    l.getD i d ∈ l := by
  rw [List.getD_eq_getElem?_getD, List.getElem?_eq_getElem hi]
  exact List.getElem_mem hi

/-- C6: on a non-empty candle list sorted strictly ascending by timestamp,
`calculate_technical_indicators` returns one indicator set per input candle
(same length), the i-th carrying the i-th candle's (symbol, timeframe,
timestamp) key, and `process_ohlcv_with_indicators` returns one MarketData
per candle whose `indicators` entry is exactly the indicator set with the
matching timestamp. -/
theorem spec_C6 (l : List OHLCV) (hne : l ≠ [])
    (hsort : List.Chain' (fun a b => a.timestamp < b.timestamp) l) :
    (DataProcessor.calculate_technical_indicators l).length = l.length ∧
    (DataProcessor.process_ohlcv_with_indicators l).length = l.length ∧
    ∀ i < l.length,
      ((DataProcessor.calculate_technical_indicators l).getD i
        default).symbol = (l.getD i default).symbol ∧
      ((DataProcessor.calculate_technical_indicators l).getD i
        default).timeframe = (l.getD i default).timeframe ∧
      ((DataProcessor.calculate_technical_indicators l).getD i
        default).timestamp = (l.getD i default).timestamp ∧
      ((DataProcessor.process_ohlcv_with_indicators l).getD i
        default).ohlcv = l.getD i default ∧
      ((DataProcessor.process_ohlcv_with_indicators l).getD i
        default).indicators =
        (DataProcessor.calculate_technical_indicators l).getD i default := by
  have hl : ¬(l.isEmpty = true) := by simp [List.isEmpty_iff, hne]
  have hms : l.mergeSort tsLe = l := mergeSort_eq_of_chain hsort
  have hinds : DataProcessor.calculate_technical_indicators l =
      tabulate l.length (fun i => convert_to_technical_indicators
        (l.getD i default, indicatorColumnsAt l i)) := by
    unfold DataProcessor.calculate_technical_indicators
      DataProcessor.ohlcv_to_dataframe calculate_indicators
    rw [if_neg hl, hms, hms, map_tabulate]
  have hproc : DataProcessor.process_ohlcv_with_indicators l =
      l.map (fun o => DataProcessor.merge_data o
        (DataProcessor.indicatorsDict
          (DataProcessor.calculate_technical_indicators l) o.timestamp)
        none) := by
    unfold DataProcessor.process_ohlcv_with_indicators
    rw [if_neg hl]
  have hkey : ∀ i, i < l.length →
      (DataProcessor.calculate_technical_indicators l).getD i default =
        convert_to_technical_indicators
          (l.getD i default, indicatorColumnsAt l i) := by
    intro i hi
    rw [hinds, getD_tabulate _ hi]
  have hmapts : (DataProcessor.calculate_technical_indicators l).map
      (·.timestamp) = l.map (·.timestamp) := by
    rw [hinds, map_tabulate, map_eq_tabulate l (·.timestamp) default]
    rfl
  have hnd : ((DataProcessor.calculate_technical_indicators l).map
      (·.timestamp)).Nodup := by
    rw [hmapts]; exact nodup_ts_of_chain hsort
  refine ⟨length_calcTI l, ?_, ?_⟩
  · rw [hproc, List.length_map]
  · intro i hi
    have hk := hkey i hi
    have hsym : ((DataProcessor.calculate_technical_indicators l).getD i
        default).symbol = (l.getD i default).symbol := by
      rw [hk]; rfl
    have htf : ((DataProcessor.calculate_technical_indicators l).getD i
        default).timeframe = (l.getD i default).timeframe := by
      rw [hk]; rfl
    have hts : ((DataProcessor.calculate_technical_indicators l).getD i
        default).timestamp = (l.getD i default).timestamp := by
      rw [hk]; rfl
    have hpi : (DataProcessor.process_ohlcv_with_indicators l).getD i
        default = DataProcessor.merge_data (l.getD i default)
          (DataProcessor.indicatorsDict
            (DataProcessor.calculate_technical_indicators l)
            ((l.getD i default).timestamp)) none := by
      rw [hproc, getD_map_of_lt l _ hi _ default]
    have hdict : DataProcessor.indicatorsDict
        (DataProcessor.calculate_technical_indicators l)
        ((l.getD i default).timestamp) =
        some ((DataProcessor.calculate_technical_indicators l).getD i
          default) := by
      rw [← hts]
      exact indicatorsDict_of_mem hnd
        (getD_mem_of_lt _ (by rw [length_calcTI]; exact hi) _)
    refine ⟨hsym, htf, hts, ?_, ?_⟩
    · rw [hpi]; rfl
    · rw [hpi, DataProcessor.merge_data, hdict]
      rfl

/-- Witness for C6 at a concrete sorted two-candle series. -/
theorem spec_C6_witness :
    (DataProcessor.calculate_technical_indicators
      [testCandle "BTC/USDT" "1h" 1 5, testCandle "BTC/USDT" "1h" 2 6]).length
      = 2 ∧
    ((DataProcessor.process_ohlcv_with_indicators
      [testCandle "BTC/USDT" "1h" 1 5, testCandle "BTC/USDT" "1h" 2 6]).getD 0
      default).ohlcv = testCandle "BTC/USDT" "1h" 1 5 ∧
    ((DataProcessor.process_ohlcv_with_indicators
      [testCandle "BTC/USDT" "1h" 1 5, testCandle "BTC/USDT" "1h" 2 6]).getD 1
      default).indicators =
      (DataProcessor.calculate_technical_indicators
        [testCandle "BTC/USDT" "1h" 1 5,
         testCandle "BTC/USDT" "1h" 2 6]).getD 1 default := by
  have h := spec_C6
    [testCandle "BTC/USDT" "1h" 1 5, testCandle "BTC/USDT" "1h" 2 6]
    (by decide)
    (List.chain'_cons.mpr ⟨by decide, List.chain'_singleton _⟩)
  exact ⟨h.1, (h.2.2 0 (by decide)).2.2.2.1, (h.2.2 1 (by decide)).2.2.2.2⟩

theorem calcTI_eq_of_perm {xs ys : List OHLCV} (hperm : xs.Perm ys)
    (hnd : (xs.map (·.timestamp)).Nodup) :
    DataProcessor.calculate_technical_indicators xs =
      DataProcessor.calculate_technical_indicators ys := by
  by_cases hxe : xs.isEmpty
  · rw [List.isEmpty_iff] at hxe
    subst hxe
    have hye : ys = [] := by
      have := hperm.length_eq
      simpa [List.length_eq_zero] using this.symm
    subst hye
    rfl
  · have hye : ¬(ys.isEmpty = true) := by
      rw [List.isEmpty_iff]
      intro hy
      subst hy
      rw [List.isEmpty_iff] at hxe
      exact hxe hperm.eq_nil
    unfold DataProcessor.calculate_technical_indicators
      DataProcessor.ohlcv_to_dataframe
    rw [if_neg hxe, if_neg hye]
    unfold calculate_indicators
    rw [mergeSort_eq_of_perm hperm hnd]

/-- C10: for candle lists with pairwise-distinct timestamps,
`process_ohlcv_with_indicators` assigns every candle the same indicator set
under any permutation of the input (the computation sorts by timestamp
internally and looks results up by timestamp), while the output follows the
given input order: both runs are the same per-candle function mapped over
their respective input orders. -/
theorem spec_C10 (xs ys : List OHLCV) (hperm : xs.Perm ys)
    (hnd : (xs.map (·.timestamp)).Nodup) :
    DataProcessor.process_ohlcv_with_indicators xs =
      xs.map (fun o => DataProcessor.merge_data o
        (DataProcessor.indicatorsDict
          (DataProcessor.calculate_technical_indicators xs) o.timestamp)
        none) ∧
    DataProcessor.process_ohlcv_with_indicators ys =
      ys.map (fun o => DataProcessor.merge_data o
        (DataProcessor.indicatorsDict
          (DataProcessor.calculate_technical_indicators xs) o.timestamp)
        none) := by
  constructor
  · by_cases hxe : xs.isEmpty
    · rw [List.isEmpty_iff] at hxe
      subst hxe
      rfl
    · unfold DataProcessor.process_ohlcv_with_indicators
      rw [if_neg hxe]
  · by_cases hye : ys.isEmpty
    · rw [List.isEmpty_iff] at hye
      subst hye
      rfl
    · unfold DataProcessor.process_ohlcv_with_indicators
      rw [if_neg hye, ← calcTI_eq_of_perm hperm hnd]

/-- Witness for C10 at a two-candle list and its transposition. -/
theorem spec_C10_witness :
    DataProcessor.process_ohlcv_with_indicators
      [testCandle "BTC/USDT" "1h" 2 6, testCandle "BTC/USDT" "1h" 1 5] =
      [testCandle "BTC/USDT" "1h" 2 6, testCandle "BTC/USDT" "1h" 1 5].map
        (fun o => DataProcessor.merge_data o
          (DataProcessor.indicatorsDict
            (DataProcessor.calculate_technical_indicators
              [testCandle "BTC/USDT" "1h" 1 5,
               testCandle "BTC/USDT" "1h" 2 6]) o.timestamp) none) :=
  (spec_C10 [testCandle "BTC/USDT" "1h" 1 5, testCandle "BTC/USDT" "1h" 2 6]
    [testCandle "BTC/USDT" "1h" 2 6, testCandle "BTC/USDT" "1h" 1 5]
    (List.Perm.swap _ _ _) (by decide)).2

theorem process_map_ohlcv (l : List OHLCV) :
    (DataProcessor.process_ohlcv_with_indicators l).map (·.ohlcv) = l := by
  by_cases hl : l.isEmpty
  · rw [List.isEmpty_iff] at hl
    subst hl
    rfl
  · unfold DataProcessor.process_ohlcv_with_indicators
    rw [if_neg hl, List.map_map]
    have : ((·.ohlcv) ∘ fun o => DataProcessor.merge_data o
        (DataProcessor.indicatorsDict
          (DataProcessor.calculate_technical_indicators l) o.timestamp)
        none) = id := by
      funext o
      rfl
    rw [this, List.map_id]

theorem map_replaceFirst (p : MarketData → Bool) (f : MarketData → MarketData)
    (g : MarketData → β) (hg : ∀ x, g (f x) = g x) (l : List MarketData) :
    (DataCollector.replaceFirst p f l).map g = l.map g := by
  induction l with
  | nil => rfl
  | cons x xs ih =>
    unfold DataCollector.replaceFirst
    by_cases hp : p x
    · simp [hp, hg]
    · simp [hp, ih]

theorem map_replaceLastMatch (p : MarketData → Bool)
    (f : MarketData → MarketData) (g : MarketData → β)
    (hg : ∀ x, g (f x) = g x) (l : List MarketData) :
    (DataCollector.replaceLastMatch p f l).map g = l.map g := by
  unfold DataCollector.replaceLastMatch
  rw [List.map_reverse, map_replaceFirst p f g hg, List.map_reverse,
    List.reverse_reverse]

theorem map_attachOrderbook (s tf : String) (ob : OrderBook)
    (l : List MarketData) :
    (DataCollector.attachOrderbook s tf ob l).map (·.ohlcv) =
      l.map (·.ohlcv) := by
  unfold DataCollector.attachOrderbook
  exact map_replaceLastMatch _
    (fun md => { md with order_book_snapshot := some ob }) (·.ohlcv)
    (fun x => rfl) l

theorem foldl_append_eq_flatMap (P : String → List MarketData)
    (tfs : List String) (acc : List MarketData) :
    tfs.foldl (fun a tf => a ++ P tf) acc = acc ++ tfs.flatMap P := by
  induction tfs generalizing acc with
  | nil => simp
  | cons t ts ih => simp [List.foldl_cons, ih]

theorem map_foldl_attach (s : String) (ob : OrderBook) (tfs : List String)
    (B : List MarketData) :
    (tfs.foldl (fun a tf => DataCollector.attachOrderbook s tf ob a) B).map
      (·.ohlcv) = B.map (·.ohlcv) := by
  induction tfs generalizing B with
  | nil => rfl
  | cons t ts ih => rw [List.foldl_cons, ih, map_attachOrderbook]

theorem map_processSymbol (tfs : List String)
    (fetchOHLCV : String → String → List OHLCV)
    (fetchOB : String → Option OrderBook) (acc : List MarketData)
    (s : String) :
    (DataCollector.processSymbol tfs fetchOHLCV fetchOB acc s).map (·.ohlcv) =
      acc.map (·.ohlcv) ++ tfs.flatMap (fun tf => fetchOHLCV s tf) := by
  unfold DataCollector.processSymbol
  have hacc2 : ∀ a : List MarketData,
      (tfs.foldl (fun a tf =>
        a ++ DataProcessor.process_ohlcv_with_indicators (fetchOHLCV s tf))
        a).map (·.ohlcv) =
      a.map (·.ohlcv) ++ tfs.flatMap (fun tf => fetchOHLCV s tf) := by
    intro a
    rw [foldl_append_eq_flatMap, List.map_append]
    simp only [List.map_flatMap, process_map_ohlcv]
  cases hob : fetchOB s with
  | none => exact hacc2 acc
  | some ob => rw [map_foldl_attach, hacc2]

/-- C3 (amended): the batch handed to the storage sink is in accumulation
order - configured symbol order (outer loop), configured timeframe order
(inner loop), fetched candle order (innermost) - with no sorting applied in
the save path: the candle sequence underlying the accumulated record list is
exactly the concatenation of the fetch results in loop order. -/
theorem spec_C3 (symbols timeframes : List String)
    (fetchOHLCV : String → String → List OHLCV)
    (fetchOB : String → Option OrderBook) :
    (DataCollector.collect_data symbols timeframes fetchOHLCV fetchOB).map
      (·.ohlcv) =
      symbols.flatMap (fun s =>
        timeframes.flatMap (fun tf => fetchOHLCV s tf)) := by
  unfold DataCollector.collect_data
  have main : ∀ (syms : List String) (acc : List MarketData),
      (syms.foldl (DataCollector.processSymbol timeframes fetchOHLCV fetchOB)
        acc).map (·.ohlcv) =
      acc.map (·.ohlcv) ++ syms.flatMap (fun s =>
        timeframes.flatMap (fun tf => fetchOHLCV s tf)) := by
    intro syms
    induction syms with
    | nil => simp
    | cons s ss ih =>
      intro acc
      rw [List.foldl_cons, ih, map_processSymbol, List.flatMap_cons,
        List.append_assoc]
  simpa using main symbols []

/-- C3 (counterexample): with symbols configured as ["B", "A"], the batch
handed to the sink lists the "B" row before the "A" row - not sorted by
symbol - refuting the claim that the batch is sorted by (symbol, timeframe,
timestamp) regardless of processing order. -/
theorem spec_C3_cex :
    ((DataCollector.collect_data ["B", "A"] ["1h"]
      (fun s tf => [testCandle s tf 1 5]) (fun _ => none)).map
      (fun md => md.ohlcv.symbol)) = ["B", "A"] ∧
    ¬ List.Chain' keyLe
      ((DataCollector.collect_data ["B", "A"] ["1h"]
        (fun s tf => [testCandle s tf 1 5]) (fun _ => none)).map recordKey) ∧
    (DataCollector.sinkBatch ["B", "A"] ["1h"]
      (fun s tf => [testCandle s tf 1 5]) (fun _ => none)).map
      (fun rows => rows.map (rowCell "symbol")) =
      some [some (CellVal.strVal "B"), some (CellVal.strVal "A")] := by
  refine ⟨by rfl, ?_, by rfl⟩
  have hkeys : ((DataCollector.collect_data ["B", "A"] ["1h"]
      (fun s tf => [testCandle s tf 1 5]) (fun _ => none)).map recordKey) =
      [("B", "1h", (1 : ℤ)), ("A", "1h", (1 : ℤ))] := rfl
  intro h
  rw [hkeys] at h
  obtain ⟨hab, -⟩ := List.chain'_cons.mp h
  simp [keyLe] at hab
  cases hab with
  | rel h1 => exact absurd h1 (by decide)

namespace DataCollector

theorem replaceFirst_of_no_match {p : MarketData → Bool}
    {f : MarketData → MarketData} {l : List MarketData}
    (h : ∀ x ∈ l, ¬(p x = true)) : replaceFirst p f l = l := by
  induction l with
  | nil => rfl
  | cons x xs ih =>
    have hx := h x (by simp)
    simp only [replaceFirst, if_neg hx]
    rw [ih (fun y hy => h y (by simp [hy]))]

theorem replaceFirst_append_of_no_match_left {p : MarketData → Bool}
    {f : MarketData → MarketData} {A : List MarketData} (B : List MarketData)
    (h : ∀ x ∈ A, ¬(p x = true)) :
    replaceFirst p f (A ++ B) = A ++ replaceFirst p f B := by
  induction A with
  | nil => rfl
  | cons x xs ih =>
    have hx := h x (by simp)
    rw [List.cons_append]
    simp only [replaceFirst, if_neg hx]
    rw [ih (fun y hy => h y (by simp [hy])), List.cons_append]

theorem replaceFirst_append_of_no_match_right {p : MarketData → Bool}
    {f : MarketData → MarketData} (A : List MarketData) {B : List MarketData}
    (h : ∀ x ∈ B, ¬(p x = true)) :
    replaceFirst p f (A ++ B) = replaceFirst p f A ++ B := by
  induction A with
  | nil => simp only [List.nil_append, replaceFirst_of_no_match h]
           rfl
  | cons x xs ih =>
    rw [List.cons_append]
    by_cases hp : p x
    · simp only [replaceFirst, if_pos hp]
      rw [List.cons_append]
    · simp only [replaceFirst, if_neg hp]
      rw [ih, List.cons_append]

theorem replaceFirst_of_all_match {p : MarketData → Bool}
    {f : MarketData → MarketData} {l : List MarketData}
    (h : ∀ x ∈ l, p x = true) : replaceFirst p f l = l.modifyHead f := by
  cases l with
  | nil => rfl
  | cons x xs =>
    simp only [replaceFirst, if_pos (h x (by simp))]
    rfl

theorem replaceLastMatch_append_of_no_match_right {p : MarketData → Bool}
    {f : MarketData → MarketData} (X : List MarketData) {Y : List MarketData}
    (h : ∀ x ∈ Y, ¬(p x = true)) :
    replaceLastMatch p f (X ++ Y) = replaceLastMatch p f X ++ Y := by
  unfold replaceLastMatch
  rw [List.reverse_append,
    replaceFirst_append_of_no_match_left _ (fun x hx => h x (by simpa using hx)),
    List.reverse_append, List.reverse_reverse]

theorem replaceLastMatch_append_of_no_match_left {p : MarketData → Bool}
    {f : MarketData → MarketData} {X : List MarketData} (Y : List MarketData)
    (h : ∀ x ∈ X, ¬(p x = true)) :
    replaceLastMatch p f (X ++ Y) = X ++ replaceLastMatch p f Y := by
  unfold replaceLastMatch
  rw [List.reverse_append,
    replaceFirst_append_of_no_match_right _ (fun x hx => h x (by simpa using hx)),
    List.reverse_append, List.reverse_reverse]

theorem replaceLastMatch_of_no_match {p : MarketData → Bool}
    {f : MarketData → MarketData} {l : List MarketData}
    (h : ∀ x ∈ l, ¬(p x = true)) : replaceLastMatch p f l = l := by
  unfold replaceLastMatch
  rw [replaceFirst_of_no_match (fun x hx => h x (by simpa using hx)),
    List.reverse_reverse]

theorem replaceLastMatch_of_all_match {p : MarketData → Bool}
    {f : MarketData → MarketData} {l : List MarketData}
    (h : ∀ x ∈ l, p x = true) :
    replaceLastMatch p f l = (l.reverse.modifyHead f).reverse := by
  unfold replaceLastMatch
  rw [replaceFirst_of_all_match (fun x hx => h x (by simpa using hx))]

end DataCollector

theorem mem_process_ohlcv {l : List OHLCV} {md : MarketData}
    (h : md ∈ DataProcessor.process_ohlcv_with_indicators l) :
    md.ohlcv ∈ l ∧ md.order_book_snapshot = none := by
  by_cases hl : l.isEmpty
  · rw [List.isEmpty_iff] at hl
    subst hl
    cases h
  · unfold DataProcessor.process_ohlcv_with_indicators at h
    rw [if_neg hl] at h
    obtain ⟨o, ho, rfl⟩ := List.mem_map.mp h
    exact ⟨ho, rfl⟩

namespace DataCollector

theorem map_modifyHead_of (f : MarketData → MarketData) (g : MarketData → β)
    (hg : ∀ x, g (f x) = g x) (l : List MarketData) :
    (l.modifyHead f).map g = l.map g := by
  cases l with
  | nil => rfl
  | cons x xs => simp [hg]

theorem map_markLast (ob : OrderBook) (l : List MarketData) :
    (markLast ob l).map (·.ohlcv) = l.map (·.ohlcv) := by
  unfold markLast
  rw [List.map_reverse,
    map_modifyHead_of (fun md => { md with order_book_snapshot := some ob })
      (fun x => x.ohlcv) (fun x => rfl),
    List.map_reverse, List.reverse_reverse]

theorem pairMatch_iff {s tf : String} {md : MarketData} :
    pairMatch s tf md = true ↔
      md.ohlcv.symbol = s ∧ md.ohlcv.timeframe = tf := by
  simp [pairMatch]

theorem ohlcv_facts_of_map_eq {A : List MarketData} {c : List OHLCV}
    (hmap : A.map (·.ohlcv) = c) {md : MarketData} (h : md ∈ A) :
    md.ohlcv ∈ c := by
  rw [← hmap]
  exact List.mem_map_of_mem _ h

theorem mem_markLast_keys {s tf : String} {ob : OrderBook}
    {P : List MarketData}
    (hP : ∀ md ∈ P, md.ohlcv.symbol = s ∧ md.ohlcv.timeframe = tf)
    {md : MarketData} (h : md ∈ markLast ob P) :
    md.ohlcv.symbol = s ∧ md.ohlcv.timeframe = tf := by
  have hm : md.ohlcv ∈ P.map (·.ohlcv) := by
    rw [← map_markLast ob P]
    exact List.mem_map_of_mem _ h
  obtain ⟨md', hmd', heq⟩ := List.mem_map.mp hm
  exact heq ▸ hP md' hmd'

theorem foldl_attach_append_left (s : String) (ob : OrderBook)
    (tfs : List String) :
    ∀ (X B : List MarketData),
      (∀ tf ∈ tfs, ∀ md ∈ X, ¬(pairMatch s tf md = true)) →
      tfs.foldl (fun a tf => attachOrderbook s tf ob a) (X ++ B) =
        X ++ tfs.foldl (fun a tf => attachOrderbook s tf ob a) B := by
  induction tfs with
  | nil => intro X B _; rfl
  | cons t ts ih =>
    intro X B hX
    rw [List.foldl_cons, List.foldl_cons]
    unfold attachOrderbook
    rw [replaceLastMatch_append_of_no_match_left _
      (fun md hmd => hX t (by simp) md hmd)]
    exact ih X _ (fun tf htf md hmd => hX tf (by simp [htf]) md hmd)

theorem foldl_attach_flatMap (s : String) (ob : OrderBook)
    (P : String → List MarketData) :
    ∀ (tfs : List String), tfs.Nodup →
      (∀ tf ∈ tfs, ∀ md ∈ P tf,
        md.ohlcv.symbol = s ∧ md.ohlcv.timeframe = tf) →
      ∀ (X : List MarketData),
        (∀ tf ∈ tfs, ∀ md ∈ X, ¬(pairMatch s tf md = true)) →
        tfs.foldl (fun a tf => attachOrderbook s tf ob a)
          (X ++ tfs.flatMap P) =
        X ++ tfs.flatMap (fun tf => markLast ob (P tf)) := by
  intro tfs
  induction tfs with
  | nil => intro _ _ X _; simp
  | cons t ts ih =>
    intro hnd hP X hX
    have htmem : t ∉ ts := (List.nodup_cons.mp hnd).1
    rw [List.flatMap_cons, List.foldl_cons]
    have h1 : ∀ md ∈ ts.flatMap P, ¬(pairMatch s t md = true) := by
      intro md hmd hpm
      obtain ⟨tf', htf', hmd'⟩ := List.mem_flatMap.mp hmd
      have h2 := (hP tf' (by simp [htf']) md hmd').2
      rw [pairMatch_iff] at hpm
      have hteq : t = tf' := by rw [← hpm.2, h2]
      exact htmem (hteq ▸ htf')
    have h2 : ∀ md ∈ X, ¬(pairMatch s t md = true) :=
      fun md hmd => hX t (by simp) md hmd
    have h3 : ∀ md ∈ P t, pairMatch s t md = true := fun md hmd =>
      pairMatch_iff.mpr (hP t (by simp) md hmd)
    have hsplit : X ++ (P t ++ ts.flatMap P) =
        (X ++ P t) ++ ts.flatMap P := by simp
    rw [hsplit]
    unfold attachOrderbook
    rw [replaceLastMatch_append_of_no_match_right _ h1,
      replaceLastMatch_append_of_no_match_left _ h2,
      replaceLastMatch_of_all_match h3]
    have hml : ((P t).reverse.modifyHead
        (fun md => { md with order_book_snapshot := some ob })).reverse =
        markLast ob (P t) := rfl
    rw [hml]
    have hre : (X ++ markLast ob (P t)) ++ ts.flatMap P =
        (X ++ markLast ob (P t)) ++ ts.flatMap P := rfl
    have hX' : ∀ tf ∈ ts, ∀ md ∈ X ++ markLast ob (P t),
        ¬(pairMatch s tf md = true) := by
      intro tf htf md hmd
      rcases List.mem_append.mp hmd with hm | hm
      · exact hX tf (by simp [htf]) md hm
      · intro hpm
        have hk := mem_markLast_keys (fun md' hmd' => hP t (by simp) md' hmd') hm
        rw [pairMatch_iff] at hpm
        have hteq : t = tf := by rw [← hpm.2, hk.2]
        exact htmem (hteq ▸ htf)
    have := ih (List.nodup_cons.mp hnd).2
      (fun tf htf md hmd => hP tf (by simp [htf]) md hmd)
      (X ++ markLast ob (P t)) hX'
    simp only [List.append_assoc] at this ⊢
    exact this


theorem tagged_process {fetchOHLCV : String → String → List OHLCV}
    {s tf : String}
    (htag : ∀ o ∈ fetchOHLCV s tf, o.symbol = s ∧ o.timeframe = tf) :
    ∀ md ∈ DataProcessor.process_ohlcv_with_indicators (fetchOHLCV s tf),
      md.ohlcv.symbol = s ∧ md.ohlcv.timeframe = tf := by
  intro md hmd
  exact htag md.ohlcv (mem_process_ohlcv hmd).1

theorem symbolBlock_eq_segments (tfs : List String)
    (fetchOHLCV : String → String → List OHLCV)
    (fetchOB : String → Option OrderBook) (s : String)
    (hnd : tfs.Nodup)
    (htag : ∀ tf ∈ tfs, ∀ o ∈ fetchOHLCV s tf,
      o.symbol = s ∧ o.timeframe = tf) :
    symbolBlock tfs fetchOHLCV fetchOB s =
      tfs.flatMap (fun tf => pairSegment fetchOHLCV fetchOB s tf) := by
  unfold symbolBlock pairSegment
  cases hob : fetchOB s with
  | none => rfl
  | some ob =>
    have := foldl_attach_flatMap s ob
      (fun tf => DataProcessor.process_ohlcv_with_indicators
        (fetchOHLCV s tf)) tfs hnd
      (fun tf htf => tagged_process (htag tf htf)) [] (by simp)
    simpa using this

theorem map_symbolBlock (tfs : List String)
    (fetchOHLCV : String → String → List OHLCV)
    (fetchOB : String → Option OrderBook) (s : String) :
    (symbolBlock tfs fetchOHLCV fetchOB s).map (·.ohlcv) =
      tfs.flatMap (fun tf => fetchOHLCV s tf) := by
  unfold symbolBlock
  cases hob : fetchOB s with
  | none => simp only [List.map_flatMap, process_map_ohlcv]
  | some ob =>
    rw [map_foldl_attach]
    simp only [List.map_flatMap, process_map_ohlcv]

theorem symbol_of_mem_symbolBlock {tfs : List String}
    {fetchOHLCV : String → String → List OHLCV}
    {fetchOB : String → Option OrderBook} {s : String}
    (htag : ∀ tf ∈ tfs, ∀ o ∈ fetchOHLCV s tf, o.symbol = s)
    {md : MarketData} (h : md ∈ symbolBlock tfs fetchOHLCV fetchOB s) :
    md.ohlcv.symbol = s := by
  have hm : md.ohlcv ∈ tfs.flatMap (fun tf => fetchOHLCV s tf) := by
    rw [← map_symbolBlock tfs fetchOHLCV fetchOB s]
    exact List.mem_map_of_mem _ h
  obtain ⟨tf, htf, ho⟩ := List.mem_flatMap.mp hm
  exact htag tf htf _ ho

theorem processSymbol_eq_append (tfs : List String)
    (fetchOHLCV : String → String → List OHLCV)
    (fetchOB : String → Option OrderBook) (acc : List MarketData)
    (s : String) (hacc : ∀ md ∈ acc, md.ohlcv.symbol ≠ s) :
    processSymbol tfs fetchOHLCV fetchOB acc s =
      acc ++ symbolBlock tfs fetchOHLCV fetchOB s := by
  unfold processSymbol symbolBlock
  rw [foldl_append_eq_flatMap]
  cases hob : fetchOB s with
  | none => rfl
  | some ob =>
    exact foldl_attach_append_left s ob tfs acc _
      (fun tf _ md hmd hpm => hacc md hmd (pairMatch_iff.mp hpm).1)

theorem collect_data_eq_flatMap (symbols tfs : List String)
    (fetchOHLCV : String → String → List OHLCV)
    (fetchOB : String → Option OrderBook) (hsym : symbols.Nodup)
    (htag : ∀ s ∈ symbols, ∀ tf ∈ tfs, ∀ o ∈ fetchOHLCV s tf,
      o.symbol = s ∧ o.timeframe = tf) :
    collect_data symbols tfs fetchOHLCV fetchOB =
      symbols.flatMap (symbolBlock tfs fetchOHLCV fetchOB) := by
  unfold collect_data
  suffices hgen : ∀ (syms : List String), syms.Nodup →
      (∀ s ∈ syms, ∀ tf ∈ tfs, ∀ o ∈ fetchOHLCV s tf,
        o.symbol = s ∧ o.timeframe = tf) →
      ∀ (acc : List MarketData),
        (∀ md ∈ acc, md.ohlcv.symbol ∉ syms) →
        syms.foldl (processSymbol tfs fetchOHLCV fetchOB) acc =
          acc ++ syms.flatMap (symbolBlock tfs fetchOHLCV fetchOB) by
    simpa using hgen symbols hsym htag [] (by simp)
  intro syms
  induction syms with
  | nil => intro _ _ acc _; simp
  | cons s ss ih =>
    intro hnd htg acc hacc
    rw [List.foldl_cons,
      processSymbol_eq_append tfs fetchOHLCV fetchOB acc s
        (fun md hmd he => hacc md hmd (by simp [he])),
      List.flatMap_cons]
    rw [ih (List.nodup_cons.mp hnd).2
      (fun s' hs' => htg s' (by simp [hs']))
      (acc ++ symbolBlock tfs fetchOHLCV fetchOB s) ?hacc2]
    · simp
    case hacc2 =>
      intro md hmd
      rcases List.mem_append.mp hmd with hm | hm
      · intro hs
        exact hacc md hm (by simp [hs])
      · have := symbol_of_mem_symbolBlock
          (fun tf htf o ho => (htg s (by simp) tf htf o ho).1) hm
        rw [this]
        exact (List.nodup_cons.mp hnd).1


theorem map_pairSegment (fetchOHLCV : String → String → List OHLCV)
    (fetchOB : String → Option OrderBook) (s tf : String) :
    (pairSegment fetchOHLCV fetchOB s tf).map (·.ohlcv) = fetchOHLCV s tf := by
  unfold pairSegment
  cases hob : fetchOB s with
  | none => exact process_map_ohlcv _
  | some ob => rw [map_markLast]; exact process_map_ohlcv _

theorem keys_of_mem_pairSegment {fetchOHLCV : String → String → List OHLCV}
    {fetchOB : String → Option OrderBook} {s tf : String}
    (htag : ∀ o ∈ fetchOHLCV s tf, o.symbol = s ∧ o.timeframe = tf)
    {md : MarketData} (h : md ∈ pairSegment fetchOHLCV fetchOB s tf) :
    md.ohlcv.symbol = s ∧ md.ohlcv.timeframe = tf := by
  have hm : md.ohlcv ∈ fetchOHLCV s tf := by
    rw [← map_pairSegment fetchOHLCV fetchOB s tf]
    exact List.mem_map_of_mem _ h
  exact htag _ hm

theorem filter_flatMap_eq {β} (l : List β) (f : β → List MarketData)
    (p : MarketData → Bool) :
    (l.flatMap f).filter p = l.flatMap (fun a => (f a).filter p) := by
  induction l with
  | nil => rfl
  | cons x xs ih => simp [List.flatMap_cons, List.filter_append, ih]

theorem flatMap_eq_of_single (f : String → List MarketData)
    (l : List String) (hnd : l.Nodup) (a : String)
    (hf : ∀ x ∈ l, x ≠ a → f x = []) :
    l.flatMap f = if a ∈ l then f a else [] := by
  induction l with
  | nil => simp
  | cons x xs ih =>
    rw [List.flatMap_cons]
    by_cases hxa : x = a
    · subst hxa
      have hrest : xs.flatMap f = [] := by
        apply List.flatMap_eq_nil_iff.mpr
        intro y hy
        exact hf y (by simp [hy])
          (fun he => (List.nodup_cons.mp hnd).1 (he ▸ hy))
      rw [hrest]
      simp
    · rw [hf x (by simp) hxa,
        ih (List.nodup_cons.mp hnd).2 (fun y hy => hf y (by simp [hy]))]
      have : (a ∈ x :: xs) ↔ (a ∈ xs) := by
        constructor
        · intro hm
          rcases List.mem_cons.mp hm with h | h
          · exact absurd h.symm hxa
          · exact h
        · intro hm
          exact List.mem_cons.mpr (Or.inr hm)
      by_cases ha : a ∈ xs
      · rw [if_pos ha, if_pos (this.mpr ha)]
        simp
      · rw [if_neg ha, if_neg (fun hm => ha (this.mp hm))]
        simp

theorem filter_pair_segment {fetchOHLCV : String → String → List OHLCV}
    {fetchOB : String → Option OrderBook} {s tf tf' : String}
    (htag : ∀ o ∈ fetchOHLCV s tf', o.symbol = s ∧ o.timeframe = tf') :
    (pairSegment fetchOHLCV fetchOB s tf').filter (pairMatch s tf) =
      if tf' = tf then pairSegment fetchOHLCV fetchOB s tf' else [] := by
  by_cases he : tf' = tf
  · subst he
    rw [if_pos rfl]
    apply List.filter_eq_self.mpr
    intro md hmd
    exact pairMatch_iff.mpr (keys_of_mem_pairSegment htag hmd)
  · rw [if_neg he]
    apply List.filter_eq_nil_iff.mpr
    intro md hmd hpm
    exact he (((keys_of_mem_pairSegment htag hmd).2.symm).trans
      (pairMatch_iff.mp hpm).2)

theorem filter_pair_symbolBlock_ne {tfs : List String}
    {fetchOHLCV : String → String → List OHLCV}
    {fetchOB : String → Option OrderBook} {s s' tf : String}
    (htag : ∀ tf' ∈ tfs, ∀ o ∈ fetchOHLCV s' tf', o.symbol = s')
    (hne : s' ≠ s) :
    (symbolBlock tfs fetchOHLCV fetchOB s').filter (pairMatch s tf) = [] := by
  apply List.filter_eq_nil_iff.mpr
  intro md hmd hpm
  exact hne ((symbol_of_mem_symbolBlock htag hmd).symm.trans
    (pairMatch_iff.mp hpm).1)

theorem filter_pair_symbolBlock {tfs : List String}
    {fetchOHLCV : String → String → List OHLCV}
    {fetchOB : String → Option OrderBook} {s tf : String}
    (hnd : tfs.Nodup)
    (htag : ∀ tf' ∈ tfs, ∀ o ∈ fetchOHLCV s tf',
      o.symbol = s ∧ o.timeframe = tf') :
    (symbolBlock tfs fetchOHLCV fetchOB s).filter (pairMatch s tf) =
      if tf ∈ tfs then pairSegment fetchOHLCV fetchOB s tf else [] := by
  rw [symbolBlock_eq_segments tfs fetchOHLCV fetchOB s hnd htag,
    filter_flatMap_eq]
  have hpoint : ∀ tf' ∈ tfs, tf' ≠ tf →
      (pairSegment fetchOHLCV fetchOB s tf').filter (pairMatch s tf) = [] := by
    intro tf' htf' hne
    rw [filter_pair_segment (htag tf' htf'), if_neg hne]
  rw [flatMap_eq_of_single _ tfs hnd tf hpoint]
  by_cases htf : tf ∈ tfs
  · rw [if_pos htf, if_pos htf, filter_pair_segment (htag tf htf), if_pos rfl]
  · rw [if_neg htf, if_neg htf]

theorem filter_pair_collect (symbols tfs : List String)
    (fetchOHLCV : String → String → List OHLCV)
    (fetchOB : String → Option OrderBook) (hsym : symbols.Nodup)
    (hnd : tfs.Nodup)
    (htag : ∀ s ∈ symbols, ∀ tf ∈ tfs, ∀ o ∈ fetchOHLCV s tf,
      o.symbol = s ∧ o.timeframe = tf) (s tf : String) :
    (collect_data symbols tfs fetchOHLCV fetchOB).filter (pairMatch s tf) =
      if s ∈ symbols ∧ tf ∈ tfs then pairSegment fetchOHLCV fetchOB s tf
      else [] := by
  rw [collect_data_eq_flatMap symbols tfs fetchOHLCV fetchOB hsym htag,
    filter_flatMap_eq]
  have hpoint : ∀ s' ∈ symbols, s' ≠ s →
      (symbolBlock tfs fetchOHLCV fetchOB s').filter (pairMatch s tf) = [] :=
    fun s' hs' hne => filter_pair_symbolBlock_ne
      (fun tf' htf' o ho => (htag s' hs' tf' htf' o ho).1) hne
  rw [flatMap_eq_of_single _ symbols hsym s hpoint]
  by_cases hs : s ∈ symbols
  · rw [if_pos hs, filter_pair_symbolBlock hnd (htag s hs)]
    by_cases htf : tf ∈ tfs
    · rw [if_pos htf, if_pos ⟨hs, htf⟩]
    · rw [if_neg htf, if_neg (fun h => htf h.2)]
  · rw [if_neg hs, if_neg (fun h => hs h.1)]


theorem countP_reverse (p : MarketData → Bool) (l : List MarketData) :
    l.reverse.countP p = l.countP p := by
  induction l with
  | nil => rfl
  | cons x xs ih =>
    rw [List.reverse_cons, List.countP_append, List.countP_cons,
      List.countP_cons, ih]
    simp [List.countP_nil]

theorem le_timestamp_last {l : List OHLCV}
    (hchain : List.Chain' (fun a b => a.timestamp < b.timestamp) l)
    {c : OHLCV} {cs : List OHLCV} (hrev : l.reverse = c :: cs) :
    ∀ x ∈ l, x.timestamp ≤ c.timestamp := by
  have hp := chain'_ts_pairwise hchain
  have hl : l = cs.reverse ++ [c] := by
    rw [← List.reverse_reverse l, hrev]
    simp
  rw [hl] at hp
  intro x hx
  rw [hl] at hx
  obtain ⟨-, -, hrel⟩ := List.pairwise_append.mp hp
  rcases List.mem_append.mp hx with hm | hm
  · exact le_of_lt (hrel x hm c (by simp))
  · simp only [List.mem_singleton] at hm
    subst hm
    exact le_refl _

theorem eq_setLast_of_mem_markLast {ob : OrderBook} {P : List MarketData}
    (hnone : ∀ md ∈ P, md.order_book_snapshot = none) {md : MarketData}
    (h : md ∈ markLast ob P) (hsome : md.order_book_snapshot ≠ none) :
    ∃ x xs, P.reverse = x :: xs ∧
      md = { x with order_book_snapshot := some ob } := by
  unfold markLast at h
  rw [List.mem_reverse] at h
  cases hrev : P.reverse with
  | nil => rw [hrev] at h; cases h
  | cons x xs =>
    rw [hrev] at h
    simp only [List.modifyHead] at h
    rcases List.mem_cons.mp h with h | h
    · exact ⟨x, xs, rfl, h⟩
    · exfalso
      apply hsome
      apply hnone
      rw [← List.mem_reverse, hrev]
      exact List.mem_cons_of_mem _ h

theorem countP_isSome_pairSegment (fetchOHLCV : String → String → List OHLCV)
    (fetchOB : String → Option OrderBook) (s tf : String) :
    (pairSegment fetchOHLCV fetchOB s tf).countP
      (fun md => md.order_book_snapshot.isSome) ≤ 1 := by
  unfold pairSegment
  cases hob : fetchOB s with
  | none =>
    have h0 : (DataProcessor.process_ohlcv_with_indicators
        (fetchOHLCV s tf)).countP (fun md => md.order_book_snapshot.isSome) =
        0 := by
      apply List.countP_eq_zero.mpr
      intro md hmd
      simp [(mem_process_ohlcv hmd).2]
    rw [h0]
    omega
  | some ob =>
    unfold markLast
    rw [countP_reverse]
    cases hrev : (DataProcessor.process_ohlcv_with_indicators
        (fetchOHLCV s tf)).reverse with
    | nil => simp
    | cons x xs =>
      simp only [List.modifyHead]
      rw [List.countP_cons]
      have h0 : xs.countP (fun md => md.order_book_snapshot.isSome) = 0 := by
        apply List.countP_eq_zero.mpr
        intro md hmd
        have : md ∈ DataProcessor.process_ohlcv_with_indicators
            (fetchOHLCV s tf) := by
          rw [← List.mem_reverse, hrev]
          exact List.mem_cons_of_mem _ hmd
        simp [(mem_process_ohlcv this).2]
      rw [h0]
      split <;> omega

theorem attached_record_of_mem_pairSegment
    {fetchOHLCV : String → String → List OHLCV}
    {fetchOB : String → Option OrderBook} {s tf : String} {md : MarketData}
    {ob : OrderBook} (h : md ∈ pairSegment fetchOHLCV fetchOB s tf)
    (hob : md.order_book_snapshot = some ob)
    (hchain : List.Chain' (fun a b => a.timestamp < b.timestamp)
      (fetchOHLCV s tf)) :
    fetchOB s = some ob ∧
      ∀ o ∈ fetchOHLCV s tf, o.timestamp ≤ md.ohlcv.timestamp := by
  unfold pairSegment at h
  cases hobs : fetchOB s with
  | none =>
    rw [hobs] at h
    rw [(mem_process_ohlcv h).2] at hob
    cases hob
  | some ob' =>
    rw [hobs] at h
    obtain ⟨x, xs, hrev, hmd⟩ := eq_setLast_of_mem_markLast
      (fun md' hmd' => (mem_process_ohlcv hmd').2) h
      (by rw [hob]; intro hc; cases hc)
    have hobeq : ob' = ob := by
      rw [hmd] at hob
      injection hob
    subst hobeq
    refine ⟨rfl, ?_⟩
    have hcrev : (fetchOHLCV s tf).reverse = x.ohlcv :: xs.map (·.ohlcv) := by
      rw [← process_map_ohlcv (fetchOHLCV s tf), ← List.map_reverse, hrev]
      rfl
    have hle := le_timestamp_last hchain hcrev
    intro o ho
    have : md.ohlcv = x.ohlcv := by rw [hmd]
    rw [this]
    exact hle o ho

end DataCollector

/-- C4: in every run (with distinct configured symbols and timeframes, and
the exchange collaborator returning candles tagged with the requested pair
in strictly ascending timestamp order), a fetched order-book snapshot is
attached to at most one accumulated record per (symbol, timeframe) pair;
any record carrying a snapshot carries the one fetched for its own symbol
and has the maximum timestamp among all accumulated records of its pair; no
other record's order-book field is set. -/
theorem spec_C4 (symbols timeframes : List String)
    (fetchOHLCV : String → String → List OHLCV)
    (fetchOB : String → Option OrderBook)
    (hsym : symbols.Nodup) (htf : timeframes.Nodup)
    (htag : ∀ s ∈ symbols, ∀ tf ∈ timeframes, ∀ o ∈ fetchOHLCV s tf,
      o.symbol = s ∧ o.timeframe = tf)
    (hasc : ∀ s ∈ symbols, ∀ tf ∈ timeframes,
      List.Chain' (fun a b => a.timestamp < b.timestamp) (fetchOHLCV s tf)) :
    (∀ s tf,
      (DataCollector.collect_data symbols timeframes fetchOHLCV
        fetchOB).countP
        (fun md => md.order_book_snapshot.isSome &&
          DataCollector.pairMatch s tf md) ≤ 1) ∧
    (∀ md ∈ DataCollector.collect_data symbols timeframes fetchOHLCV fetchOB,
      ∀ ob, md.order_book_snapshot = some ob →
        fetchOB md.ohlcv.symbol = some ob ∧
        ∀ md' ∈ DataCollector.collect_data symbols timeframes fetchOHLCV
            fetchOB,
          md'.ohlcv.symbol = md.ohlcv.symbol →
          md'.ohlcv.timeframe = md.ohlcv.timeframe →
          md'.ohlcv.timestamp ≤ md.ohlcv.timestamp) := by
  constructor
  · intro s tf
    rw [← List.countP_filter,
      DataCollector.filter_pair_collect symbols timeframes fetchOHLCV fetchOB
        hsym htf htag s tf]
    by_cases hin : s ∈ symbols ∧ tf ∈ timeframes
    · rw [if_pos hin]
      exact DataCollector.countP_isSome_pairSegment fetchOHLCV fetchOB s tf
    · rw [if_neg hin]
      simp
  · intro md hmd ob hob
    have hmf : md ∈ (DataCollector.collect_data symbols timeframes fetchOHLCV
        fetchOB).filter
        (DataCollector.pairMatch md.ohlcv.symbol md.ohlcv.timeframe) :=
      List.mem_filter.mpr ⟨hmd, DataCollector.pairMatch_iff.mpr ⟨rfl, rfl⟩⟩
    rw [DataCollector.filter_pair_collect symbols timeframes fetchOHLCV
      fetchOB hsym htf htag md.ohlcv.symbol md.ohlcv.timeframe] at hmf
    by_cases hin : md.ohlcv.symbol ∈ symbols ∧
        md.ohlcv.timeframe ∈ timeframes
    · rw [if_pos hin] at hmf
      obtain ⟨hfb, hle⟩ := DataCollector.attached_record_of_mem_pairSegment
        hmf hob (hasc _ hin.1 _ hin.2)
      refine ⟨hfb, ?_⟩
      intro md' hmd' hs' htf'
      have hmf' : md' ∈ (DataCollector.collect_data symbols timeframes
          fetchOHLCV fetchOB).filter
          (DataCollector.pairMatch md.ohlcv.symbol md.ohlcv.timeframe) :=
        List.mem_filter.mpr ⟨hmd',
          DataCollector.pairMatch_iff.mpr ⟨hs', htf'⟩⟩
      rw [DataCollector.filter_pair_collect symbols timeframes fetchOHLCV
        fetchOB hsym htf htag md.ohlcv.symbol md.ohlcv.timeframe,
        if_pos hin] at hmf'
      have hco : md'.ohlcv ∈ fetchOHLCV md.ohlcv.symbol md.ohlcv.timeframe := by
        rw [← DataCollector.map_pairSegment fetchOHLCV fetchOB
          md.ohlcv.symbol md.ohlcv.timeframe]
        exact List.mem_map_of_mem _ hmf'
      exact hle md'.ohlcv hco
    · rw [if_neg hin] at hmf
      cases hmf

/-- Witness for C4 at one symbol, two timeframes, two ascending candles
each, and a fetched snapshot. -/
theorem spec_C4_witness :
    (DataCollector.collect_data ["A"] ["1h", "4h"]
      (fun s tf => [testCandle s tf 1 5, testCandle s tf 2 6])
      (fun _ => some (testBook [⟨1, 1⟩] [⟨2, 1⟩]))).countP
      (fun md => md.order_book_snapshot.isSome &&
        DataCollector.pairMatch "A" "1h" md) ≤ 1 :=
  (spec_C4 ["A"] ["1h", "4h"]
    (fun s tf => [testCandle s tf 1 5, testCandle s tf 2 6])
    (fun _ => some (testBook [⟨1, 1⟩] [⟨2, 1⟩]))
    (by decide) (by decide) (by decide)
    (fun s _ tf _ =>
      List.chain'_cons.mpr
        ⟨by exact one_lt_two, List.chain'_singleton _⟩)).1 "A" "1h"
